import Mathlib

set_option autoImplicit false

/-!
Verification of the LLM-text-tagging repository.

The development shallowly embeds the Python sources:
* `axion_ray_task_1.py` — taxonomy-constrained tagging with validation
  (namespace `Axion`);
* `llm_tagger.py` — cached LLM calls and rule-based advanced tags
  (namespace `Tagger`);
* `cleaner.py` — profile-driven imputation / normalization / outlier flagging
  (namespace `CleanerM`);
* `profiler.py` — the primary-key detection part of column profiling
  (namespace `ProfilerM`).

Machine floats (the `confidence` values and numeric cells) are modelled as
exact rationals; external collaborators (the HTTP classification service,
`hashlib.md5`, pandas date parsing) are modelled as explicit function
parameters, matching the spec's treatment of them as opaque collaborators.
-/

/-- Helper: an element found by indexed lookup is a member of the list. -/
theorem mem_of_getElem_opt {α : Type _} {l : List α} {i : ℕ} {a : α}
    (h : l[i]? = some a) : a ∈ l := by
  induction l generalizing i with
  | nil => simp at h
  | cons b rest ih =>
    cases i with
    | zero =>
      simp only [List.getElem?_cons_zero, Option.some.injEq] at h
      simp [h]
    | succ n =>
      simp only [List.getElem?_cons_succ] at h
      exact List.mem_cons_of_mem _ (ih h)

namespace Axion

/-- Taxonomy: one list of allowed labels per axis, built from the Taxonomy
sheet by `dropna().tolist()` (`axion_ray_task_1.py` lines 23-29). -/
structure Taxonomy where
  rootCause : List String
  symptomCondition : List String
  symptomComponent : List String
  fixCondition : List String
  fixComponent : List String

/-- A parsed JSON response from the classification service.  A field is
`none` when the key is absent from the JSON object (or, for the list
fields, present but not a list) — exactly the cases
`validate_llm_output` guards with `.get` / `isinstance` checks. -/
structure LLMOutput where
  root_cause : Option String
  symptom_condition : Option (List String)
  symptom_component : Option (List String)
  fix_condition : Option (List String)
  fix_component : Option (List String)
  confidence : ℚ

/-- The dictionary shape produced by `validate_llm_output`: one label per
single-label axis, exactly-3-element lists for the multi-label axes. -/
structure ValidatedOutput where
  root_cause : String
  symptom_condition : List String
  symptom_component : List String
  fix_condition : List String
  fix_component : List String
  confidence : ℚ
deriving DecidableEq

/-- The item test on line 168 of `axion_ray_task_1.py`:
`item in taxonomy[taxonomy_key] or item == "Not Mentioned" or item == ""`. -/
def AllowedItem (tax : List String) (item : String) : Prop :=
  item ∈ tax ∨ item = "Not Mentioned" ∨ item = ""

instance (tax : List String) (item : String) : Decidable (AllowedItem tax item) := by
  unfold AllowedItem; infer_instance

/-- The per-item validation loop of `validate_llm_output` (lines 166-172):
each valid item is kept, each invalid item is replaced by `"Not Mentioned"`
and the running confidence is multiplied by `0.9`. -/
def validate_items (tax : List String) : List String → ℚ → List String × ℚ
  | [], conf => ([], conf)
  | item :: rest, conf =>
    if AllowedItem tax item then
      let p := validate_items tax rest conf
      (item :: p.1, p.2)
    else
      let p := validate_items tax rest (conf * (9/10))
      ("Not Mentioned" :: p.1, p.2)

/-- Lines 175-179: pad with `""` while shorter than 3, then take `[:3]`. -/
def pad_to_three (l : List String) : List String :=
  (l ++ List.replicate (3 - l.length) "").take 3

/-- Validation of one multi-label field (the body of the
`for field_key, taxonomy_key in list_fields.items()` loop, lines 159-179).
A missing or non-list field becomes `["Not Mentioned", "", ""]`. -/
def validate_field (tax : List String) (f : Option (List String)) (conf : ℚ) :
    List String × ℚ :=
  match f with
  | none => (["Not Mentioned", "", ""], conf)
  | some xs =>
    let p := validate_items tax xs conf
    (pad_to_three p.1, p.2)

/-- Validation of `root_cause` (lines 144-149): replaced by
`"Not Mentioned"` (confidence × 0.8) unless it is a taxonomy member or
exactly `"Not Mentioned"`. -/
def validate_root (tax : List String) (rc : Option String) (conf : ℚ) : String × ℚ :=
  match rc with
  | some s => if s ∈ tax ∨ s = "Not Mentioned" then (s, conf)
              else ("Not Mentioned", conf * (8/10))
  | none => ("Not Mentioned", conf * (8/10))

/-- `validate_llm_output(llm_output, taxonomy)` (lines 140-181).  The four
list fields are processed in dict insertion order, threading the
confidence. -/
def validate_llm_output (o : LLMOutput) (tax : Taxonomy) : ValidatedOutput :=
  let r := validate_root tax.rootCause o.root_cause o.confidence
  let sc := validate_field tax.symptomCondition o.symptom_condition r.2
  let sp := validate_field tax.symptomComponent o.symptom_component sc.2
  let fc := validate_field tax.fixCondition o.fix_condition sp.2
  let fp := validate_field tax.fixComponent o.fix_component fc.2
  { root_cause := r.1
    symptom_condition := sc.1
    symptom_component := sp.1
    fix_condition := fc.1
    fix_component := fp.1
    confidence := fp.2 }

/-- The default structure returned by `call_llm_api` on any failure
(lines 130-137): network error, non-2xx status (`raise_for_status`),
JSON-parse failure — all collapse to this via the bare `except`. -/
def default_result : LLMOutput :=
  { root_cause := some "Not Mentioned"
    symptom_condition := some ["Not Mentioned", "", ""]
    symptom_component := some ["Not Mentioned", "", ""]
    fix_condition := some ["Not Mentioned", "", ""]
    fix_component := some ["Not Mentioned", "", ""]
    confidence := 0 }

/-- `call_llm_api` (lines 97-137).  The external HTTP call and JSON parse
are modelled as an oracle `response`; `none` is any raised exception. -/
def call_llm_api (response : Option LLMOutput) : LLMOutput :=
  response.getD default_result

/-- `process_row` (lines 184-202): call the service, then validate. -/
def process_row (tax : Taxonomy) (response : Option LLMOutput) : ValidatedOutput :=
  validate_llm_output (call_llm_api response) tax

/-- One output row of `df_task` as written by the main loop
(lines 209-233). -/
structure OutputRow where
  rootCause : String
  symptomCondition : List String
  symptomComponent : List String
  fixCondition : List String
  fixComponent : List String
  confidence : ℚ
deriving DecidableEq

/-- The `val if val else "Not Mentioned"` emission on lines 218-230. -/
def fill_label (v : String) : String :=
  if v = "" then "Not Mentioned" else v

/-- The dataframe updates of one iteration of the main loop
(lines 214-233). -/
def write_row (result : ValidatedOutput) : OutputRow :=
  { rootCause := result.root_cause
    symptomCondition := (result.symptom_condition.take 3).map fill_label
    symptomComponent := (result.symptom_component.take 3).map fill_label
    fixCondition := (result.fix_condition.take 3).map fill_label
    fixComponent := (result.fix_component.take 3).map fill_label
    confidence := result.confidence }

/-- The whole tagging loop: one service response oracle value per row. -/
def run_pipeline (tax : Taxonomy) (responses : List (Option LLMOutput)) :
    List OutputRow :=
  responses.map (fun r => write_row (process_row tax r))

/-- `df_task[df_task["Confidence"] < 0.7]` (line 242). -/
def low_confidence_rows (rows : List OutputRow) : List OutputRow :=
  rows.filter (fun r => r.confidence < 7/10)

/-- Closed form of the item-validation loop: items are mapped
individually and the confidence is scaled by `0.9` once per invalid
item. -/
theorem validate_items_spec (tax : List String) (xs : List String) (conf : ℚ) :
    validate_items tax xs conf =
      (xs.map (fun item => if AllowedItem tax item then item else "Not Mentioned"),
       conf * (9/10) ^ (xs.countP (fun item => decide (¬ AllowedItem tax item)))) := by
  induction xs generalizing conf with
  | nil => simp [validate_items]
  | cons item rest ih =>
    by_cases h : AllowedItem tax item
    · simp [validate_items, h, ih, List.countP_cons]
    · simp [validate_items, h, ih, List.countP_cons, pow_succ]
      ring

theorem mem_validate_items (tax : List String) (xs : List String) (conf : ℚ) :
    ∀ l ∈ (validate_items tax xs conf).1,
      l ∈ tax ∨ l = "Not Mentioned" ∨ l = "" := by
  rw [validate_items_spec]
  intro l hl
  simp only [List.mem_map] at hl
  obtain ⟨item, -, rfl⟩ := hl
  by_cases h : AllowedItem tax item
  · simp only [if_pos h]; exact h
  · simp [h]

theorem mem_pad_to_three (l : List String) :
    ∀ x ∈ pad_to_three l, x ∈ l ∨ x = "" := by
  intro x hx
  unfold pad_to_three at hx
  have := List.mem_of_mem_take hx
  rcases List.mem_append.mp this with h | h
  · exact Or.inl h
  · exact Or.inr (List.eq_of_mem_replicate h)

theorem pad_to_three_length (l : List String) :
    (pad_to_three l).length = 3 := by
  unfold pad_to_three
  simp only [List.length_take, List.length_append, List.length_replicate]
  omega

theorem mem_validate_field (tax : List String) (f : Option (List String)) (conf : ℚ) :
    ∀ l ∈ (validate_field tax f conf).1,
      l ∈ tax ∨ l = "Not Mentioned" ∨ l = "" := by
  intro l hl
  match f with
  | none =>
    simp only [validate_field, List.mem_cons, List.not_mem_nil, or_false] at hl
    tauto
  | some xs =>
    simp only [validate_field] at hl
    rcases mem_pad_to_three _ l hl with h | h
    · exact mem_validate_items tax xs conf l h
    · exact Or.inr (Or.inr h)

theorem validate_field_length (tax : List String) (f : Option (List String)) (conf : ℚ) :
    ((validate_field tax f conf).1).length = 3 := by
  match f with
  | none => simp [validate_field]
  | some xs => simp [validate_field, pad_to_three_length]

theorem mem_emit_field (tax : List String) (f : Option (List String)) (conf : ℚ) :
    ∀ l ∈ (((validate_field tax f conf).1.take 3).map fill_label),
      l ∈ tax ∨ l = "Not Mentioned" ∨ l = "" := by
  intro l hl
  simp only [List.mem_map] at hl
  obtain ⟨x, hx, rfl⟩ := hl
  have hx' := List.mem_of_mem_take hx
  have := mem_validate_field tax f conf x hx'
  unfold fill_label
  by_cases hxe : x = ""
  · simp [hxe]
  · rcases this with h | h | h
    · simp [hxe, h]
    · simp [hxe, h]
    · exact absurd h hxe

theorem validate_root_mem (tax : List String) (rc : Option String) (conf : ℚ) :
    (validate_root tax rc conf).1 ∈ tax ∨
      (validate_root tax rc conf).1 = "Not Mentioned" := by
  match rc with
  | none => simp [validate_root]
  | some s =>
    simp only [validate_root]
    by_cases h : s ∈ tax ∨ s = "Not Mentioned"
    · rw [if_pos h]
      simpa using h
    · rw [if_neg h]
      simp

/-- C1: for every row and every taxonomy axis, every label emitted into the
final output is a member of that axis's taxonomy list, or `"Not Mentioned"`,
or the empty string; `validate_llm_output` enforces this for every service
response, including malformed (missing-key / non-list) ones, so no
non-taxonomy label survives into the output. -/
theorem c1_no_foreign_label_in_output (tax : Taxonomy) (response : Option LLMOutput) :
    (let row := write_row (process_row tax response)
     (row.rootCause ∈ tax.rootCause ∨ row.rootCause = "Not Mentioned" ∨
        row.rootCause = "") ∧
     (∀ l ∈ row.symptomCondition,
        l ∈ tax.symptomCondition ∨ l = "Not Mentioned" ∨ l = "") ∧
     (∀ l ∈ row.symptomComponent,
        l ∈ tax.symptomComponent ∨ l = "Not Mentioned" ∨ l = "") ∧
     (∀ l ∈ row.fixCondition,
        l ∈ tax.fixCondition ∨ l = "Not Mentioned" ∨ l = "") ∧
     (∀ l ∈ row.fixComponent,
        l ∈ tax.fixComponent ∨ l = "Not Mentioned" ∨ l = "")) := by
  refine ⟨?_, ?_, ?_, ?_, ?_⟩
  · have := validate_root_mem tax.rootCause (call_llm_api response).root_cause
      (call_llm_api response).confidence
    unfold write_row process_row validate_llm_output
    rcases this with h | h
    · exact Or.inl h
    · exact Or.inr (Or.inl h)
  · exact mem_emit_field _ _ _
  · exact mem_emit_field _ _ _
  · exact mem_emit_field _ _ _
  · exact mem_emit_field _ _ _

/-- C2: each element of a returned multi-label list is checked
individually — a non-taxonomy, non-`"Not Mentioned"`, non-empty element is
replaced with `"Not Mentioned"` and the confidence is multiplied by `0.9`
for that element, compounding over the invalid elements; the list is then
padded with `""` (or truncated) to exactly 3 entries, so every validated
multi-label axis has exactly 3 entries. -/
theorem c2_multilabel_item_validation (tax : List String) (xs : List String)
    (conf : ℚ) (f : Option (List String)) (o : LLMOutput) (t : Taxonomy) :
    validate_field tax (some xs) conf =
      (pad_to_three
         (xs.map (fun item => if AllowedItem tax item then item else "Not Mentioned")),
       conf * (9/10) ^ (xs.countP (fun item => decide (¬ AllowedItem tax item)))) ∧
    ((validate_field tax f conf).1).length = 3 ∧
    (validate_llm_output o t).symptom_condition.length = 3 ∧
    (validate_llm_output o t).symptom_component.length = 3 ∧
    (validate_llm_output o t).fix_condition.length = 3 ∧
    (validate_llm_output o t).fix_component.length = 3 := by
  refine ⟨?_, validate_field_length tax f conf, ?_, ?_, ?_, ?_⟩
  · simp [validate_field, validate_items_spec]
  all_goals
    unfold validate_llm_output
    exact validate_field_length _ _ _

/-- The fully validated fallback value for a failed row. -/
def default_validated : ValidatedOutput :=
  { root_cause := "Not Mentioned"
    symptom_condition := ["Not Mentioned", "", ""]
    symptom_component := ["Not Mentioned", "", ""]
    fix_condition := ["Not Mentioned", "", ""]
    fix_component := ["Not Mentioned", "", ""]
    confidence := 0 }

/-- The dataframe row written for a failed service call. -/
def default_row : OutputRow :=
  { rootCause := "Not Mentioned"
    symptomCondition := ["Not Mentioned", "Not Mentioned", "Not Mentioned"]
    symptomComponent := ["Not Mentioned", "Not Mentioned", "Not Mentioned"]
    fixCondition := ["Not Mentioned", "Not Mentioned", "Not Mentioned"]
    fixComponent := ["Not Mentioned", "Not Mentioned", "Not Mentioned"]
    confidence := 0 }

theorem validate_items_default (tax : List String) (conf : ℚ) :
    validate_items tax ["Not Mentioned", "", ""] conf =
      (["Not Mentioned", "", ""], conf) := by
  simp [validate_items, AllowedItem]

theorem process_row_failure (tax : Taxonomy) :
    process_row tax none = default_validated := by
  unfold process_row call_llm_api validate_llm_output default_result
  simp only [Option.getD_none]
  rw [show (validate_root tax.rootCause (some "Not Mentioned") 0 = ("Not Mentioned", 0))
        from by simp [validate_root]]
  simp [validate_field, validate_items_default, pad_to_three, default_validated]

/-- C3: when the external call fails, the row falls back to the default
result (single-label axis `"Not Mentioned"`, every multi-label axis
`["Not Mentioned", "", ""]`, confidence `0.0`); the failure never aborts
the pipeline — the row still appears in the output (as the all-default
row) and is counted by the final low-confidence report. -/
theorem c3_failure_fallback (tax : Taxonomy) (responses : List (Option LLMOutput))
    (i : ℕ) (h : responses[i]? = some none) :
    process_row tax none = default_validated ∧
    (run_pipeline tax responses)[i]? = some default_row ∧
    (run_pipeline tax responses).length = responses.length ∧
    default_row ∈ low_confidence_rows (run_pipeline tax responses) := by
  have hrow : write_row (process_row tax none) = default_row := by
    rw [process_row_failure]
    simp [write_row, default_validated, default_row, fill_label]
  have hget : (run_pipeline tax responses)[i]? = some default_row := by
    unfold run_pipeline
    rw [List.getElem?_map, h]
    simp [hrow]
  refine ⟨process_row_failure tax, hget, by simp [run_pipeline], ?_⟩
  have hmem : default_row ∈ run_pipeline tax responses :=
    mem_of_getElem_opt hget
  refine List.mem_filter.mpr ⟨hmem, ?_⟩
  show decide (default_row.confidence < 7/10) = true
  rw [show default_row.confidence = 0 from rfl]
  with_unfolding_all decide

/-- Witness for C3 at a concrete input: a single row whose service call
raised. -/
theorem c3_failure_fallback_witness :
    process_row ⟨[], [], [], [], []⟩ none = default_validated ∧
    (run_pipeline ⟨[], [], [], [], []⟩ [none])[0]? = some default_row ∧
    (run_pipeline ⟨[], [], [], [], []⟩ [none]).length =
      ([none] : List (Option LLMOutput)).length ∧
    default_row ∈ low_confidence_rows (run_pipeline ⟨[], [], [], [], []⟩ [none]) :=
  c3_failure_fallback ⟨[], [], [], [], []⟩ [none] 0 rfl

end Axion

namespace Py

/-- ASCII uppercase-letter test (the range CPython's `str` case methods act
on for the ASCII data used in this repository). -/
def isUpperChar (c : Char) : Bool := 65 ≤ c.toNat && c.toNat ≤ 90

/-- ASCII lowercase-letter test. -/
def isLowerChar (c : Char) : Bool := 97 ≤ c.toNat && c.toNat ≤ 122

/-- ASCII letter test (Python's "cased character" notion, ASCII range). -/
def isAlphaChar (c : Char) : Bool := isUpperChar c || isLowerChar c

/-- ASCII lowercasing of one character. -/
def toLowerChar (c : Char) : Char :=
  if isUpperChar c then Char.ofNat (c.toNat + 32) else c

/-- ASCII uppercasing of one character. -/
def toUpperChar (c : Char) : Char :=
  if isLowerChar c then Char.ofNat (c.toNat - 32) else c

/-- Python `str.strip` whitespace set. -/
def isSpaceChar (c : Char) : Bool :=
  c = ' ' || c = '\t' || c = '\n' || c = '\r' || c = '\x0b' || c = '\x0c'

/-- Python `str.lower()` (ASCII). -/
def lower (s : String) : String := ⟨s.data.map toLowerChar⟩

/-- Python `str.strip()` on a character list. -/
def stripList (l : List Char) : List Char :=
  ((l.dropWhile isSpaceChar).reverse.dropWhile isSpaceChar).reverse

/-- Python `str.strip()`. -/
def strip (s : String) : String := ⟨stripList s.data⟩

/-- Python `str.title()` on a character list: a letter is uppercased when
the previous character is not a letter, lowercased otherwise. -/
def titleList : Bool → List Char → List Char
  | _, [] => []
  | prevAlpha, c :: rest =>
    if isAlphaChar c then
      (if prevAlpha then toLowerChar c else toUpperChar c) :: titleList true rest
    else c :: titleList false rest

/-- Python `str.title()`. -/
def title (s : String) : String := ⟨titleList false s.data⟩

/-- Occurrence test of `pat` inside a character list. -/
def containsList (pat : List Char) : List Char → Bool
  | [] => pat.isEmpty
  | c :: rest => pat.isPrefixOf (c :: rest) || containsList pat rest

/-- Python's `pat in s` substring test. -/
def substr (pat s : String) : Bool := containsList pat.data s.data

end Py

namespace Tagger

/-- A repaired service result: the three tag lists, all present (the
`for key in ["issues", "components", "actions"]` loop guarantees this). -/
structure LLMResult where
  issues : List String
  components : List String
  actions : List String
deriving DecidableEq

/-- A parsed JSON response as it comes back from the service; any of the
three keys may be absent. -/
structure RawLLMResponse where
  issues : Option (List String)
  components : Option (List String)
  actions : Option (List String)

/-- `llm_tagger.py` lines 63-65: missing keys are filled with `[]`. -/
def fill_required_keys (r : RawLLMResponse) : LLMResult :=
  { issues := r.issues.getD []
    components := r.components.getD []
    actions := r.actions.getD [] }

/-- The `except` fallback of `_call_llm` (line 61). -/
def fallback_result : LLMResult := { issues := [], components := [], actions := [] }

/-- The process-lifetime `self.llm_cache` dictionary. -/
abbrev Cache := List (String × LLMResult)

/-- Dictionary lookup `self.llm_cache[cache_key]` / `cache_key in self.llm_cache`. -/
def cache_find : Cache → String → Option LLMResult
  | [], _ => none
  | (k, v) :: rest, key => if k = key then some v else cache_find rest key

/-- `_generate_llm_cache_key` (lines 25-26): the md5 hex digest of the
prompt, with `hashlib.md5(...).hexdigest()` as an opaque function. -/
def generate_llm_cache_key (md5_hexdigest : String → String) (prompt : String) : String :=
  md5_hexdigest prompt

/-- The `result` computed on a cache miss (lines 50-65): the parsed
response with missing keys filled, or the fallback on any exception. -/
def call_llm_result (service : String → Option RawLLMResponse) (prompt : String) :
    LLMResult :=
  match service prompt with
  | some raw => fill_required_keys raw
  | none => fallback_result

/-- `_call_llm` (lines 28-68).  The HTTP call + JSON parse is the oracle
`service` (`none` = any raised exception).  Returns the result, the updated
cache, and the list of prompts for which an external HTTP request was
actually issued in this call (`[]` on a cache hit). -/
def call_llm (md5_hexdigest : String → String)
    (service : String → Option RawLLMResponse) (cache : Cache) (prompt : String) :
    LLMResult × Cache × List String :=
  let cache_key := generate_llm_cache_key md5_hexdigest prompt
  match cache_find cache cache_key with
  | some r => (r, cache, [])
  | none =>
    let result := call_llm_result service prompt
    (result, (cache_key, result) :: cache, [prompt])

/-- The per-row call sequence of `extract_tags`: one prompt per row,
threading the cache, accumulating the external-call log. -/
def run_llm_calls (md5_hexdigest : String → String)
    (service : String → Option RawLLMResponse) :
    Cache → List String → List LLMResult × Cache × List String
  | cache, [] => ([], cache, [])
  | cache, p :: ps =>
    let r := call_llm md5_hexdigest service cache p
    let rest := run_llm_calls md5_hexdigest service r.2.1 ps
    (r.1 :: rest.1, rest.2.1, r.2.2 ++ rest.2.2)

theorem cache_find_eq_none_iff (cache : Cache) (key : String) :
    cache_find cache key = none ↔ key ∉ cache.map Prod.fst := by
  induction cache with
  | nil => simp [cache_find]
  | cons e rest ih =>
    obtain ⟨k, v⟩ := e
    by_cases h : k = key
    · subst h
      simp [cache_find]
    · simp [cache_find, h, ih, Ne.symm h]

theorem run_llm_calls_keys_mono (md5h : String → String)
    (service : String → Option RawLLMResponse) (ps : List String) (cache : Cache) :
    ∀ k ∈ cache.map Prod.fst,
      k ∈ (run_llm_calls md5h service cache ps).2.1.map Prod.fst := by
  induction ps generalizing cache with
  | nil => simp [run_llm_calls]
  | cons p ps ih =>
    intro k hk
    simp only [run_llm_calls]
    cases hfind : cache_find cache (generate_llm_cache_key md5h p) with
    | some r =>
      simp only [call_llm, hfind]
      exact ih cache k hk
    | none =>
      simp only [call_llm, hfind]
      refine ih _ k ?_
      simp [hk]

theorem run_llm_calls_count_le (md5h : String → String)
    (service : String → Option RawLLMResponse) (ps : List String) (cache : Cache)
    (q : String) :
    ((run_llm_calls md5h service cache ps).2.2).count q ≤
      if md5h q ∈ cache.map Prod.fst then 0 else 1 := by
  induction ps generalizing cache with
  | nil => simp [run_llm_calls]
  | cons p ps ih =>
    simp only [run_llm_calls]
    cases hfind : cache_find cache (generate_llm_cache_key md5h p) with
    | some r =>
      simp only [call_llm, hfind, List.nil_append]
      exact ih cache
    | none =>
      simp only [call_llm, hfind, List.singleton_append]
      have hkey1 : md5h p ∈ ((generate_llm_cache_key md5h p,
          call_llm_result service p) :: cache).map Prod.fst := by
        simp [generate_llm_cache_key]
      have h0 := ih ((generate_llm_cache_key md5h p, call_llm_result service p) :: cache)
      by_cases hq : q = p
      · subst hq
        rw [if_pos hkey1] at h0
        have hmiss : md5h q ∉ cache.map Prod.fst := by
          have := (cache_find_eq_none_iff cache (generate_llm_cache_key md5h q)).mp hfind
          simpa [generate_llm_cache_key] using this
        rw [if_neg hmiss, List.count_cons_self]
        omega
      · rw [List.count_cons_of_ne hq]
        by_cases hmem : md5h q ∈ cache.map Prod.fst
        · rw [if_pos hmem]
          have hmem1 : md5h q ∈ ((generate_llm_cache_key md5h p,
              call_llm_result service p) :: cache).map Prod.fst := by
            simp [hmem]
          rw [if_pos hmem1] at h0
          exact h0
        · rw [if_neg hmem]
          have h1 : (if md5h q ∈ ((generate_llm_cache_key md5h p,
              call_llm_result service p) :: cache).map Prod.fst then 0 else 1) ≤ 1 := by
            split <;> omega
          exact le_trans h0 h1

theorem run_llm_calls_count_eq_one (md5h : String → String)
    (service : String → Option RawLLMResponse)
    (hinj : Function.Injective md5h) (ps : List String) (cache : Cache)
    (q : String) (hq : q ∈ ps) (hmiss : md5h q ∉ cache.map Prod.fst) :
    ((run_llm_calls md5h service cache ps).2.2).count q = 1 := by
  induction ps generalizing cache with
  | nil => simp at hq
  | cons p ps ih =>
    simp only [run_llm_calls]
    by_cases hpq : p = q
    · subst hpq
      have hfind : cache_find cache (generate_llm_cache_key md5h p) = none := by
        rw [cache_find_eq_none_iff]
        simpa [generate_llm_cache_key] using hmiss
      simp only [call_llm, hfind, List.singleton_append]
      rw [List.count_cons_self]
      have h0 := run_llm_calls_count_le md5h service ps
        ((generate_llm_cache_key md5h p, call_llm_result service p) :: cache) p
      have hkey1 : md5h p ∈ ((generate_llm_cache_key md5h p,
          call_llm_result service p) :: cache).map Prod.fst := by
        simp [generate_llm_cache_key]
      rw [if_pos hkey1] at h0
      omega
    · have hq' : q ∈ ps := by
        rcases List.mem_cons.mp hq with h | h
        · exact absurd h.symm hpq
        · exact h
      cases hfind : cache_find cache (generate_llm_cache_key md5h p) with
      | some r =>
        simp only [call_llm, hfind, List.nil_append]
        exact ih cache hq' hmiss
      | none =>
        simp only [call_llm, hfind, List.singleton_append]
        rw [List.count_cons_of_ne (fun h => hpq h.symm)]
        have hne : md5h q ∉ ((generate_llm_cache_key md5h p,
            call_llm_result service p) :: cache).map Prod.fst := by
          simp only [List.map_cons, List.mem_cons, generate_llm_cache_key]
          rintro (h | h)
          · exact hpq (hinj h).symm
          · exact hmiss h
        exact ih ((generate_llm_cache_key md5h p, call_llm_result service p) :: cache)
          hq' hne

/-- C4: within one run, at most one external call is issued per distinct
prompt text; the cache key is the (deterministic) hash of the exact prompt
and a cache hit returns the cached result with no HTTP request, so two
rows producing byte-identical prompts trigger exactly one external call
(md5 modelled as an injective opaque hash). -/
theorem c4_one_call_per_distinct_prompt (md5_hexdigest : String → String)
    (service : String → Option RawLLMResponse) (prompts : List String) (p : String)
    (hinj : Function.Injective md5_hexdigest) (hp : p ∈ prompts) :
    ((run_llm_calls md5_hexdigest service [] prompts).2.2).count p = 1 ∧
    (∀ cache r, cache_find cache (generate_llm_cache_key md5_hexdigest p) = some r →
       call_llm md5_hexdigest service cache p = (r, cache, [])) := by
  constructor
  · exact run_llm_calls_count_eq_one md5_hexdigest service hinj prompts [] p hp (by simp)
  · intro cache r hfind
    simp [call_llm, hfind]

/-- Witness for C4: two identical prompts, one external call. -/
theorem c4_one_call_per_distinct_prompt_witness :
    ((run_llm_calls id (fun _ => none) [] ["a", "a"]).2.2).count "a" = 1 ∧
    (∀ cache r, cache_find cache (generate_llm_cache_key id "a") = some r →
       call_llm id (fun _ => none) cache "a" = (r, cache, [])) :=
  c4_one_call_per_distinct_prompt id (fun _ => none) ["a", "a"] "a"
    Function.injective_id (by simp)

/-- C10: when the external call fails, `_call_llm` stores the fallback
default (empty issues/components/actions) under the prompt's hash, so any
later call with a byte-identical prompt returns that failed default from
the cache with no new external call — failures are never retried within a
run. -/
theorem c10_failure_cached_never_retried (md5_hexdigest : String → String)
    (service : String → Option RawLLMResponse) (cache : Cache) (p : String)
    (hfail : service p = none)
    (hmiss : cache_find cache (generate_llm_cache_key md5_hexdigest p) = none) :
    call_llm md5_hexdigest service cache p =
      (fallback_result,
       (generate_llm_cache_key md5_hexdigest p, fallback_result) :: cache, [p]) ∧
    call_llm md5_hexdigest service
        ((generate_llm_cache_key md5_hexdigest p, fallback_result) :: cache) p =
      (fallback_result,
       (generate_llm_cache_key md5_hexdigest p, fallback_result) :: cache, []) := by
  constructor
  · simp [call_llm, call_llm_result, hmiss, hfail]
  · simp [call_llm, cache_find]

/-- Witness for C10 at a concrete failing prompt. -/
theorem c10_failure_cached_never_retried_witness :
    call_llm id (fun _ => none) [] "a" =
      (fallback_result, (generate_llm_cache_key id "a", fallback_result) :: [], ["a"]) ∧
    call_llm id (fun _ => none)
        ((generate_llm_cache_key id "a", fallback_result) :: []) "a" =
      (fallback_result, (generate_llm_cache_key id "a", fallback_result) :: [], []) :=
  c10_failure_cached_never_retried id (fun _ => none) [] "a" rfl rfl

/-- One row of the cleaned dataframe as read by `extract_advanced_tags`
(lines 183-192); absent numeric fields are `none` (`row.get(_, 0)`). -/
structure RepairRow where
  correction_verbatim : String
  customer_verbatim : String
  global_labor_desc : String
  repair_age : Option ℚ
  km : Option ℚ
  totalcost : Option ℚ
  lbrcost : Option ℚ

/-- The REPAIR_URGENCY decision chain (lines 269-280), predicates in source
order, first match wins. -/
def repair_urgency (repair_age : ℚ) (kilometers : ℚ) (combined_text : String) : String :=
  if repair_age = 0 then "Immediate"
  else if Py.substr "safety" combined_text || Py.substr "airbag" combined_text then
    "Safety Critical"
  else if kilometers ≠ 0 ∧ kilometers < 20000 ∧ repair_age < 6 then "Early Failure"
  else if 24 < repair_age then "Long-term Issue"
  else "Normal"

/-- The combined text `f"{correction} {customer} {global_labor_desc}".lower()`
(line 213), with the strips of lines 184-192 applied. -/
def combined_text (row : RepairRow) : String :=
  Py.lower (Py.strip row.correction_verbatim ++ " " ++ Py.strip row.customer_verbatim
      ++ " " ++ Py.strip row.global_labor_desc)

/-- The REPAIR_URGENCY value `extract_advanced_tags` assigns to a row. -/
def extract_advanced_tags_urgency (row : RepairRow) : String :=
  repair_urgency (row.repair_age.getD 0) (row.km.getD 0) (combined_text row)

/-- C9: a row whose REPAIR_AGE is 0 — including a missing field defaulting
to 0 — gets REPAIR_URGENCY "Immediate" regardless of its text content,
because the zero-age predicate is first in the fixed evaluation order. -/
theorem c9_zero_repair_age_immediate (row : RepairRow)
    (h : row.repair_age = some 0 ∨ row.repair_age = none) :
    extract_advanced_tags_urgency row = "Immediate" := by
  have hz : row.repair_age.getD 0 = 0 := by
    rcases h with h | h <;> simp [h]
  unfold extract_advanced_tags_urgency repair_urgency
  rw [if_pos hz]

/-- Witness for C9: a row with safety-critical text but repair age 0. -/
theorem c9_zero_repair_age_immediate_witness :
    extract_advanced_tags_urgency
      { correction_verbatim := "replaced airbag assembly"
        customer_verbatim := "safety concern"
        global_labor_desc := "airbag"
        repair_age := none
        km := some 100
        totalcost := none
        lbrcost := none } = "Immediate" :=
  c9_zero_repair_age_immediate _ (Or.inr rfl)

end Tagger

namespace CleanerM

/-- One dataframe cell.  `na` is NaN/NaT; dates are modelled as rational
timestamps. -/
inductive Cell
  | na
  | num (q : ℚ)
  | str (s : String)
  | bool (b : Bool)
  | date (d : ℚ)
deriving DecidableEq

def Cell.isNa : Cell → Bool
  | .na => true
  | _ => false

/-- A dataframe: ordered association of column names to columns. -/
abbrev Table := List (String × List Cell)

/-- `df[name]` — `none` models the KeyError for an absent column. -/
def lookup_col : Table → String → Option (List Cell)
  | [], _ => none
  | (n, col) :: rest, name => if n = name then some col else lookup_col rest name

/-- `df[name] = col`: overwrite the existing column in place, or append a
new column at the end. -/
def upsert (t : Table) (name : String) (col : List Cell) : Table :=
  if t.any (fun e => e.1 = name) then
    t.map (fun e => if e.1 = name then (name, col) else e)
  else t ++ [(name, col)]

/-- The `column_type` strings of the profiler. -/
inductive ColType
  | numerical
  | categorical
  | text
  | date
deriving DecidableEq

/-- The slice of a profiler record that `clean_data` reads.
`column_type = none` models an absent `"column_type"` key; `median` models
`profile.get("median", …)`; `outlier_count` models
`profile.get("outlier_count", 0)`. -/
structure Profile where
  column_type : Option ColType
  missing_count : ℕ
  median : Option ℚ
  potential_issues : List String
  outlier_count : ℕ
deriving DecidableEq

/-- The insight log entries of `clean_data`, one constructor per format
string, carrying the same data as the Python message. -/
inductive Insight
  | skipped (col : String)
  | filledMedian (col : String) (count : ℕ) (value : Option ℚ)
  | filledMode (col : String) (count : ℕ) (value : Cell)
  | filledText (col : String) (count : ℕ)
  | filledMedianDate (col : String) (count : ℕ) (value : Option ℚ)
  | standardized (col : String)
  | dateConvertFailed (col : String)
  | flaggedOutliers (col : String) (rows : ℕ)
deriving DecidableEq

/-- Whether an insight records an imputation (the `missing_count > 0`
branches of lines 25-52). -/
def Insight.isImputation : Insight → Bool
  | .filledMedian _ _ _ => true
  | .filledMode _ _ _ => true
  | .filledText _ _ => true
  | .filledMedianDate _ _ _ => true
  | _ => false

/-- Whether an insight is the outlier-flagging message of line 81. -/
def Insight.isOutlierFlag : Insight → Bool
  | .flaggedOutliers _ _ => true
  | _ => false

/-- The numeric values of a column (pandas numeric ops skip NaN). -/
def colNums (col : List Cell) : List ℚ :=
  col.filterMap (fun c => match c with | .num q => some q | _ => none)

def insertSorted (a : ℚ) : List ℚ → List ℚ
  | [] => [a]
  | b :: rest => if a ≤ b then a :: b :: rest else b :: insertSorted a rest

/-- Ascending sort (the order statistics pandas computes on). -/
def sortRat : List ℚ → List ℚ
  | [] => []
  | a :: rest => insertSorted a (sortRat rest)

/-- Floor of a rational (denominators are positive). -/
def ratFloor (a : ℚ) : ℤ := Int.fdiv a.num a.den

/-- pandas `Series.quantile(q)` with the default linear interpolation over
the non-missing values: position `h = (n-1)·q` between order statistics. -/
def pandas_quantile (xs : List ℚ) (q : ℚ) : ℚ :=
  match sortRat xs with
  | [] => 0
  | sorted =>
    let h : ℚ := ((sorted.length : ℚ) - 1) * q
    let i : ℕ := (ratFloor h).toNat
    let lo := sorted.getD i 0
    let hi := sorted.getD (i + 1) lo
    lo + (h - (i : ℚ)) * (hi - lo)

/-- pandas `Series.median()` over the non-missing values; `none` when
there are none (pandas returns NaN). -/
def pandas_median (xs : List ℚ) : Option ℚ :=
  match sortRat xs with
  | [] => none
  | sorted =>
    some (if sorted.length % 2 = 1 then sorted.getD (sorted.length / 2) 0
          else (sorted.getD (sorted.length / 2 - 1) 0
                + sorted.getD (sorted.length / 2) 0) / 2)

def nonNaCells (col : List Cell) : List Cell := col.filter (fun c => !c.isNa)

def dedupFirstAux : List Cell → List Cell → List Cell
  | _, [] => []
  | seen, c :: rest =>
    if c ∈ seen then dedupFirstAux seen rest
    else c :: dedupFirstAux (c :: seen) rest

/-- Distinct values in order of first appearance. -/
def dedupFirst (l : List Cell) : List Cell := dedupFirstAux [] l

/-- Rank used to order cells of different constructors (pandas raises on
such mixed columns; any total extension is adequate for homogeneous
data). -/
def cellRank : Cell → ℕ
  | .na => 0
  | .bool _ => 1
  | .num _ => 2
  | .date _ => 3
  | .str _ => 4

/-- The ascending value order `np.sort` uses inside pandas `mode()`:
numeric order on numbers, lexicographic order on strings. -/
def cellLe : Cell → Cell → Bool
  | .num a, .num b => a ≤ b
  | .str a, .str b => a ≤ b
  | .bool a, .bool b => !a || b
  | .date a, .date b => a ≤ b
  | a, b => cellRank a ≤ cellRank b

def cellFreq (vals : List Cell) (v : Cell) : ℕ := vals.count v

/-- The values of maximal frequency among the non-missing values. -/
def modeCandidates (col : List Cell) : List Cell :=
  let vals := nonNaCells col
  (dedupFirst vals).filter
    (fun v => vals.all (fun w => cellFreq vals w ≤ cellFreq vals v))

/-- Minimum of a cell list in the `cellLe` order. -/
def minCell : List Cell → Option Cell
  | [] => none
  | a :: rest => some (rest.foldl (fun m x => if cellLe x m then x else m) a)

/-- pandas `df[col].mode().iloc[0]`: `mode()` returns the tied
most-frequent values sorted ascending, so `.iloc[0]` is the least of
them; `none` models the IndexError when there are no non-missing
values. -/
def pandas_mode_first (col : List Cell) : Option Cell :=
  minCell (modeCandidates col)

/-- `Series.fillna(v)`. -/
def fillNa (col : List Cell) (v : Cell) : List Cell :=
  col.map (fun c => if c.isNa then v else c)

/-- `astype(str)` of one cell. -/
def cellToStr : Cell → String
  | .na => "nan"
  | .num q => toString q
  | .str s => s
  | .bool b => if b then "True" else "False"
  | .date d => toString d

/-- `.astype(str).str.strip().str.title()` (lines 59-61). -/
def standardizeCol (col : List Cell) : List Cell :=
  col.map (fun c => .str (Py.title (Py.strip (cellToStr c))))

/-- `pd.to_datetime` of one cell; string parsing is the opaque
`parse_date` (pandas' own parser), booleans raise. -/
def cellToDatetime (parse_date : String → Option ℚ) : Cell → Option Cell
  | .na => some .na
  | .date d => some (.date d)
  | .num q => some (.date q)
  | .str s => (parse_date s).map .date
  | .bool _ => none

/-- `pd.to_datetime(column)`; `none` models a raised conversion error. -/
def toDatetime (parse_date : String → Option ℚ) (col : List Cell) :
    Option (List Cell) :=
  col.mapM (cellToDatetime parse_date)

/-- The IQR outlier mask of lines 74-79, computed on the column's current
values: flagged iff `v < Q1 - 1.5*IQR` or `v > Q3 + 1.5*IQR` (comparisons
with NaN are false, hence missing entries are never flagged). -/
def iqr_outlier_mask (col : List Cell) : List Cell :=
  let q1 := pandas_quantile (colNums col) (1/4)
  let q3 := pandas_quantile (colNums col) (3/4)
  let iqr := q3 - q1
  col.map (fun c =>
    match c with
    | .num v => .bool (decide (v < q1 - 3/2 * iqr) || decide (q3 + 3/2 * iqr < v))
    | _ => .bool false)

/-- `profile.get("median", df[col].median())` (line 27). -/
def num_median_val (p : Profile) (col : List Cell) : Option ℚ :=
  p.median.orElse (fun _ => pandas_median (colNums col))

/-- The numerical column after the median imputation of lines 26-31
(identity when nothing is missing, or when the median itself is NaN). -/
def imputedNumCol (p : Profile) (col : List Cell) : List Cell :=
  if p.missing_count = 0 then col
  else
    match num_median_val p col with
    | some m => fillNa col (.num m)
    | none => col

/-- The `if profile["missing_count"] > 0` imputation block (lines 25-52),
returning the updated table and the appended insights; `none` models a
raised exception (absent column, empty `mode()`, failing `to_datetime`
median). -/
def missing_step (parse_date : String → Option ℚ) (t : Table) (c : String)
    (p : Profile) (ty : ColType) : Option (Table × List Insight) :=
  if p.missing_count = 0 then some (t, [])
  else
    match ty with
    | .numerical =>
      (lookup_col t c).bind fun col =>
        some (upsert t c (imputedNumCol p col),
          [.filledMedian c p.missing_count (num_median_val p col)])
    | .categorical =>
      (lookup_col t c).bind fun col =>
        (pandas_mode_first col).map fun m =>
          (upsert t c (fillNa col m), [.filledMode c p.missing_count m])
    | .text =>
      (lookup_col t c).map fun col =>
        (upsert t c (fillNa col (.str "")), [.filledText c p.missing_count])
    | .date =>
      (lookup_col t c).bind fun col =>
        let t1 := upsert t (c ++ "_MISSING") (col.map (fun x => .bool x.isNa))
        (toDatetime parse_date col).map fun dcol =>
          let md := pandas_median (dcol.filterMap
            (fun x => match x with | .date d => some d | _ => none))
          let col2 :=
            match md with
            | some m => fillNa col (.date m)
            | none => col
          (upsert t1 c col2, [.filledMedianDate c p.missing_count md])

/-- The categorical normalization block (lines 54-62). -/
def standardize_step (t : Table) (c : String) (p : Profile) (ty : ColType) :
    Option (Table × List Insight) :=
  if ty = .categorical ∧
      "Inconsistent capitalization or spacing" ∈ p.potential_issues then
    (lookup_col t c).map fun col =>
      (upsert t c (standardizeCol col), [.standardized c])
  else some (t, [])

/-- The date re-coercion block (lines 64-68); its `try/except` swallows
every failure (including an absent column) into an insight. -/
def date_convert_step (parse_date : String → Option ℚ) (t : Table) (c : String)
    (ty : ColType) : Table × List Insight :=
  if ty = .date then
    match lookup_col t c with
    | none => (t, [.dateConvertFailed c])
    | some col =>
      match toDatetime parse_date col with
      | some dcol => (upsert t c dcol, [])
      | none => (t, [.dateConvertFailed c])
  else (t, [])

/-- The outlier flagging block (lines 70-83). -/
def outlier_step (t : Table) (c : String) (p : Profile) (ty : ColType) :
    Option (Table × List Insight) :=
  if ty = .numerical ∧ 0 < p.outlier_count then
    (lookup_col t c).map fun col =>
      let mask := iqr_outlier_mask col
      (upsert t (c ++ "_OUTLIER") mask,
        [.flaggedOutliers c (mask.count (.bool true))])
  else some (t, [])

/-- One iteration of the `for col, profile in self.column_profiles.items()`
loop of `clean_data` (lines 20-83): skip-if-untyped, impute, normalize,
re-coerce dates, flag outliers — in source order, threading the table. -/
def clean_step (parse_date : String → Option ℚ) (st : Table × List Insight)
    (entry : String × Profile) : Option (Table × List Insight) :=
  match entry.2.column_type with
  | none => some (st.1, st.2 ++ [.skipped entry.1])
  | some ty =>
    (missing_step parse_date st.1 entry.1 entry.2 ty).bind fun s1 =>
    (standardize_step s1.1 entry.1 entry.2 ty).bind fun s2 =>
    (let s3 := date_convert_step parse_date s2.1 entry.1 ty
     (outlier_step s3.1 entry.1 entry.2 ty).map fun s4 =>
       (s4.1, st.2 ++ s1.2 ++ s2.2 ++ s3.2 ++ s4.2))

/-- The `for col, profile in self.column_profiles.items()` loop: fold the
per-column step, propagating a raised exception as `none`. -/
def clean_fold (parse_date : String → Option ℚ) :
    Table × List Insight → List (String × Profile) →
    Option (Table × List Insight)
  | st, [] => some st
  | st, e :: rest => (clean_step parse_date st e).bind
      fun st' => clean_fold parse_date st' rest

/-- `Cleaner.clean_data` (lines 17-86): fold the per-column step over the
profile map, starting from a fresh insight log. -/
def clean_data (parse_date : String → Option ℚ)
    (profiles : List (String × Profile)) (t : Table) :
    Option (Table × List Insight) :=
  clean_fold parse_date (t, []) profiles

end CleanerM

namespace ProfilerM

/-- A raw dataframe column as the profiler's dtype dispatch sees it. -/
inductive PandasColumn
  | numeric (vals : List (Option ℚ))
  | object (vals : List (Option String))
  | datetime (vals : List (Option ℚ))

/-- `len(col_data)`. -/
def rowCount : PandasColumn → ℕ
  | .numeric vals => vals.length
  | .object vals => vals.length
  | .datetime vals => vals.length

/-- `col_data.isna().sum()`. -/
def missingCount : PandasColumn → ℕ
  | .numeric vals => vals.countP (fun v => v.isNone)
  | .object vals => vals.countP (fun v => v.isNone)
  | .datetime vals => vals.countP (fun v => v.isNone)

/-- `col_data.nunique()` (distinct non-missing values). -/
def uniqueCount : PandasColumn → ℕ
  | .numeric vals => (vals.filterMap id).dedup.length
  | .object vals => (vals.filterMap id).dedup.length
  | .datetime vals => (vals.filterMap id).dedup.length

/-- Whether `pd.to_numeric(col_data.dropna())` succeeds on an object
column: every non-missing string parses as a number (`parse_num` is
pandas' numeric parser, opaque). -/
def object_coercible (parse_num : String → Option ℚ)
    (vals : List (Option String)) : Bool :=
  (vals.filterMap id).all (fun s => (parse_num s).isSome)

/-- The slice of a profile record that decides primary-key detection;
`potential_primary_key = none` models the absent key. -/
structure PPKProfile where
  missing_count : ℕ
  unique_count : ℕ
  potential_primary_key : Option Bool
deriving DecidableEq

/-- The primary-key behaviour of `DataProfiler.profile_columns` for one
column (`profiler.py` lines 29-160): base counts first; an object column
wholly coercible to numeric is profiled as numerical, stored, and
`continue`d (lines 106-107) — before the primary-key check of lines
151-158 is reached — while every other path falls through to the check. -/
def profile_column_ppk (parse_num : String → Option ℚ) (col : PandasColumn) :
    PPKProfile :=
  let missing := missingCount col
  let unique := uniqueCount col
  match col with
  | .object vals =>
    if object_coercible parse_num vals then
      { missing_count := missing
        unique_count := unique
        potential_primary_key := none }
    else
      { missing_count := missing
        unique_count := unique
        potential_primary_key :=
          some (decide (unique = rowCount col ∧ missing = 0)) }
  | _ =>
      { missing_count := missing
        unique_count := unique
        potential_primary_key :=
          some (decide (unique = rowCount col ∧ missing = 0)) }

/-- C8 counterexample: the object-dtype column `["1","2"]` is wholly
coercible to numeric, so the numeric branch stores its profile and
`continue`s, skipping the primary-key check — the field is absent even
though the column has 2 unique values in 2 rows with 0 missing, where the
claim requires `potential_primary_key = true`. -/
theorem c8_counterexample :
    (profile_column_ppk
        (fun s => if s = "1" then some 1 else if s = "2" then some 2 else none)
        (.object [some "1", some "2"])).potential_primary_key = none ∧
    uniqueCount (PandasColumn.object [some "1", some "2"]) =
      rowCount (PandasColumn.object [some "1", some "2"]) ∧
    missingCount (PandasColumn.object [some "1", some "2"]) = 0 := by
  refine ⟨?_, ?_, ?_⟩ <;> with_unfolding_all rfl

/-- C8 amended: for every column except an object-dtype column wholly
coercible to numeric (whose branch stores the profile and `continue`s
before the check, leaving the field absent), the profile contains
`potential_primary_key`, true iff `unique_count` equals the row count and
`missing_count` is 0. -/
theorem c8_primary_key_field (parse_num : String → Option ℚ)
    (col : PandasColumn)
    (h : ∀ vals, col = .object vals →
      object_coercible parse_num vals = false) :
    (profile_column_ppk parse_num col).potential_primary_key =
      some (decide (uniqueCount col = rowCount col ∧ missingCount col = 0)) := by
  cases col with
  | object vals =>
    simp [profile_column_ppk, h vals rfl]
  | numeric vals => rfl
  | datetime vals => rfl

/-- Witness for the amended C8: a non-coercible object column gets the
field, with the correct boolean value. -/
theorem c8_primary_key_field_witness :
    (profile_column_ppk (fun _ => none)
        (.object [some "a"])).potential_primary_key =
      some (decide (uniqueCount (PandasColumn.object [some "a"]) =
          rowCount (PandasColumn.object [some "a"]) ∧
        missingCount (PandasColumn.object [some "a"]) = 0)) :=
  c8_primary_key_field (fun _ => none) (.object [some "a"])
    (fun vals hv => by cases hv; rfl)

end ProfilerM

namespace Py

theorem toNat_ofNat_of_lt {n : ℕ} (h : n < 55296) : (Char.ofNat n).toNat = n := by
  have hv : n.isValidChar := Or.inl h
  simp only [Char.ofNat, hv, dif_pos, Char.ofNatAux, Char.toNat, UInt32.ofNat',
    UInt32.toNat]
  simp [BitVec.toNat_ofNatLt]

theorem isUpperChar_iff (c : Char) :
    isUpperChar c = true ↔ 65 ≤ c.toNat ∧ c.toNat ≤ 90 := by
  simp [isUpperChar]

theorem isLowerChar_iff (c : Char) :
    isLowerChar c = true ↔ 97 ≤ c.toNat ∧ c.toNat ≤ 122 := by
  simp [isLowerChar]

theorem isAlphaChar_iff (c : Char) :
    isAlphaChar c = true ↔
      (65 ≤ c.toNat ∧ c.toNat ≤ 90) ∨ (97 ≤ c.toNat ∧ c.toNat ≤ 122) := by
  simp [isAlphaChar, isUpperChar, isLowerChar]

theorem space_toNat_le (c : Char) (h : isSpaceChar c = true) : c.toNat ≤ 32 := by
  simp only [isSpaceChar, Bool.or_eq_true, decide_eq_true_eq] at h
  rcases h with ((((h | h) | h) | h) | h) | h <;> subst h <;> decide

theorem not_space_of_alpha (c : Char) (h : isAlphaChar c = true) :
    isSpaceChar c = false := by
  rw [← Bool.not_eq_true]
  intro hs
  have h1 := space_toNat_le c hs
  rw [isAlphaChar_iff] at h
  omega

theorem toLowerChar_toNat (c : Char) :
    (toLowerChar c).toNat = if isUpperChar c then c.toNat + 32 else c.toNat := by
  unfold toLowerChar
  by_cases h : isUpperChar c = true
  · rw [if_pos h, if_pos h]
    have hb := (isUpperChar_iff c).mp h
    exact toNat_ofNat_of_lt (by omega)
  · rw [if_neg h, if_neg h]

theorem toUpperChar_toNat (c : Char) :
    (toUpperChar c).toNat = if isLowerChar c then c.toNat - 32 else c.toNat := by
  unfold toUpperChar
  by_cases h : isLowerChar c = true
  · rw [if_pos h, if_pos h]
    have hb := (isLowerChar_iff c).mp h
    exact toNat_ofNat_of_lt (by omega)
  · rw [if_neg h, if_neg h]

theorem isAlphaChar_toLowerChar (c : Char) (h : isAlphaChar c = true) :
    isAlphaChar (toLowerChar c) = true := by
  rw [isAlphaChar_iff] at h ⊢
  rw [toLowerChar_toNat]
  by_cases hu : isUpperChar c = true
  · have hb := (isUpperChar_iff c).mp hu
    rw [if_pos hu]
    omega
  · rw [if_neg hu]
    have : ¬ (65 ≤ c.toNat ∧ c.toNat ≤ 90) := fun hc => hu ((isUpperChar_iff c).mpr hc)
    omega

theorem isAlphaChar_toUpperChar (c : Char) (h : isAlphaChar c = true) :
    isAlphaChar (toUpperChar c) = true := by
  rw [isAlphaChar_iff] at h ⊢
  rw [toUpperChar_toNat]
  by_cases hl : isLowerChar c = true
  · have hb := (isLowerChar_iff c).mp hl
    rw [if_pos hl]
    omega
  · rw [if_neg hl]
    have : ¬ (97 ≤ c.toNat ∧ c.toNat ≤ 122) := fun hc => hl ((isLowerChar_iff c).mpr hc)
    omega

theorem isUpperChar_toLowerChar (c : Char) : isUpperChar (toLowerChar c) = false := by
  rw [← Bool.not_eq_true, isUpperChar_iff, toLowerChar_toNat]
  by_cases hu : isUpperChar c = true
  · have hb := (isUpperChar_iff c).mp hu
    rw [if_pos hu]
    omega
  · rw [if_neg hu]
    exact fun hc => hu ((isUpperChar_iff c).mpr hc)

theorem isLowerChar_toUpperChar (c : Char) : isLowerChar (toUpperChar c) = false := by
  rw [← Bool.not_eq_true, isLowerChar_iff, toUpperChar_toNat]
  by_cases hl : isLowerChar c = true
  · have hb := (isLowerChar_iff c).mp hl
    rw [if_pos hl]
    omega
  · rw [if_neg hl]
    exact fun hc => hl ((isLowerChar_iff c).mpr hc)

theorem toLowerChar_of_not_upper (c : Char) (h : isUpperChar c = false) :
    toLowerChar c = c := by
  unfold toLowerChar
  rw [h]
  simp

theorem toUpperChar_of_not_lower (c : Char) (h : isLowerChar c = false) :
    toUpperChar c = c := by
  unfold toUpperChar
  rw [h]
  simp

theorem toLowerChar_idem (c : Char) : toLowerChar (toLowerChar c) = toLowerChar c :=
  toLowerChar_of_not_upper _ (isUpperChar_toLowerChar c)

theorem toUpperChar_idem (c : Char) : toUpperChar (toUpperChar c) = toUpperChar c :=
  toUpperChar_of_not_lower _ (isLowerChar_toUpperChar c)

theorem titleList_titleList (b : Bool) (l : List Char) :
    titleList b (titleList b l) = titleList b l := by
  induction l generalizing b with
  | nil => rfl
  | cons c rest ih =>
    by_cases h : isAlphaChar c = true
    · cases b with
      | true =>
        simp only [titleList, h, if_true, ite_true]
        simp [titleList, isAlphaChar_toLowerChar c h, toLowerChar_idem, ih true]
      | false =>
        simp only [titleList, h, if_true, ite_false]
        simp [titleList, isAlphaChar_toUpperChar c h, toUpperChar_idem, ih true]
    · simp only [titleList, h, ite_false, Bool.false_eq_true, if_false]
      simp [titleList, h, ih false]

theorem titleList_map_isSpace (b : Bool) (l : List Char) :
    (titleList b l).map isSpaceChar = l.map isSpaceChar := by
  induction l generalizing b with
  | nil => rfl
  | cons c rest ih =>
    by_cases h : isAlphaChar c = true
    · cases b with
      | true =>
        simp [titleList, h, ih, not_space_of_alpha c h,
          not_space_of_alpha _ (isAlphaChar_toLowerChar c h)]
      | false =>
        simp [titleList, h, ih, not_space_of_alpha c h,
          not_space_of_alpha _ (isAlphaChar_toUpperChar c h)]
    · simp [titleList, h, ih]

theorem dropWhile_titleList (l : List Char) :
    (titleList false l).dropWhile isSpaceChar =
      titleList false (l.dropWhile isSpaceChar) := by
  induction l with
  | nil => rfl
  | cons c rest ih =>
    by_cases h : isAlphaChar c = true
    · have hs := not_space_of_alpha c h
      have hs' := not_space_of_alpha _ (isAlphaChar_toUpperChar c h)
      simp [titleList, h, List.dropWhile_cons, hs, hs']
    · by_cases hsp : isSpaceChar c = true
      · simp [titleList, h, List.dropWhile_cons, hsp, ih]
      · simp [titleList, h, List.dropWhile_cons, hsp]

theorem stripList_eq_rdrop (l : List Char) :
    stripList l = List.rdropWhile isSpaceChar (List.dropWhile isSpaceChar l) := rfl

theorem dropWhile_stripList (l : List Char) :
    List.dropWhile isSpaceChar (stripList l) = stripList l := by
  rw [stripList_eq_rdrop, List.dropWhile_eq_self_iff]
  intro hl
  obtain ⟨t, ht⟩ := List.rdropWhile_prefix isSpaceChar (List.dropWhile isSpaceChar l)
  have hd : 0 < (List.dropWhile isSpaceChar l).length := by
    rw [← ht, List.length_append]
    omega
  have hget : (List.rdropWhile isSpaceChar (List.dropWhile isSpaceChar l)).get ⟨0, hl⟩ =
      (List.dropWhile isSpaceChar l).get ⟨0, hd⟩ := by
    have h0 : (List.rdropWhile isSpaceChar (List.dropWhile isSpaceChar l))[0]? =
        (List.dropWhile isSpaceChar l)[0]? := by
      conv_rhs => rw [← ht]
      rw [List.getElem?_append_left hl]
    rw [List.getElem?_eq_getElem hl, List.getElem?_eq_getElem hd] at h0
    simp only [List.get_eq_getElem]
    exact Option.some.inj h0
  rw [hget]
  exact List.dropWhile_get_zero_not isSpaceChar l hd

theorem stripList_idem (l : List Char) : stripList (stripList l) = stripList l := by
  rw [stripList_eq_rdrop (stripList l), dropWhile_stripList, stripList_eq_rdrop,
    List.rdropWhile_idempotent]

theorem rdropWhile_stripList (l : List Char) :
    List.rdropWhile isSpaceChar (stripList l) = stripList l := by
  rw [stripList_eq_rdrop, List.rdropWhile_idempotent]

theorem rdropWhile_eq_self_of_pattern {l₁ l₂ : List Char}
    (hm : l₁.map isSpaceChar = l₂.map isSpaceChar)
    (h : List.rdropWhile isSpaceChar l₂ = l₂) :
    List.rdropWhile isSpaceChar l₁ = l₁ := by
  rw [List.rdropWhile_eq_self_iff] at h ⊢
  intro hl
  have hl₂ : l₂ ≠ [] := by
    intro he
    subst he
    simp only [List.map_nil, List.map_eq_nil_iff] at hm
    exact hl hm
  have hlast : isSpaceChar (l₁.getLast hl) = isSpaceChar (l₂.getLast hl₂) := by
    have h1 : (l₁.map isSpaceChar).getLast? = (l₂.map isSpaceChar).getLast? := by
      rw [hm]
    rw [List.getLast?_map, List.getLast?_map, List.getLast?_eq_getLast _ hl,
      List.getLast?_eq_getLast _ hl₂] at h1
    simpa using h1
  intro hp
  exact h hl₂ (by rw [← hlast]; exact hp)

theorem stripList_titleList (l : List Char) :
    stripList (titleList false (stripList l)) = titleList false (stripList l) := by
  rw [stripList_eq_rdrop (titleList false (stripList l))]
  rw [dropWhile_titleList, dropWhile_stripList]
  exact rdropWhile_eq_self_of_pattern (titleList_map_isSpace false (stripList l))
    (rdropWhile_stripList l)

theorem data_mk (l : List Char) : (String.mk l).data = l := rfl

theorem title_strip_title_strip (s : String) :
    title (strip (title (strip s))) = title (strip s) := by
  unfold title strip
  simp only [data_mk]
  rw [stripList_titleList, titleList_titleList]

end Py

namespace CleanerM

theorem upsert_cons_of_ne (x : String × List Cell) (t : Table) (k : String)
    (col : List Cell) (h : x.1 ≠ k) :
    upsert (x :: t) k col = x :: upsert t k col := by
  unfold upsert
  by_cases ht : t.any (fun e => e.1 = k)
  · rw [if_pos, if_pos ht]
    · simp [h]
    · simp [List.any_cons, ht]
  · rw [if_neg, if_neg ht]
    · simp
    · simp [List.any_cons, h, ht]

theorem upsert_cons_eq (n : String) (c0 : List Cell) (t : Table) (col : List Cell) :
    upsert ((n, c0) :: t) n col =
      (n, col) :: t.map (fun e => if e.1 = n then (n, col) else e) := by
  unfold upsert
  rw [if_pos]
  · simp
  · simp [List.any_cons]

theorem lookup_upsert_self (t : Table) (k : String) (col : List Cell) :
    lookup_col (upsert t k col) k = some col := by
  induction t with
  | nil => simp [upsert, lookup_col]
  | cons x t ih =>
    obtain ⟨n, c0⟩ := x
    by_cases h : n = k
    · subst h
      rw [upsert_cons_eq]
      simp [lookup_col]
    · rw [upsert_cons_of_ne _ _ _ _ h]
      simp only [lookup_col, if_neg h]
      exact ih

theorem lookup_map_update_ne (t : Table) (k k' : String) (col : List Cell)
    (h : k' ≠ k) :
    lookup_col (t.map (fun e => if e.1 = k then (k, col) else e)) k' =
      lookup_col t k' := by
  induction t with
  | nil => rfl
  | cons x t ih =>
    obtain ⟨n, c0⟩ := x
    rw [List.map_cons]
    by_cases hn : n = k
    · subst hn
      have hnk' : ¬ n = k' := fun hh => h hh.symm
      have hhead : (if (n, c0).1 = n then (n, col) else (n, c0)) = (n, col) := by
        simp
      rw [hhead]
      simp only [lookup_col, if_neg hnk']
      exact ih
    · have hhead : (if (n, c0).1 = k then (k, col) else (n, c0)) = (n, c0) := by
        simp [hn]
      rw [hhead]
      by_cases hk' : n = k'
      · simp [lookup_col, hk']
      · simp only [lookup_col, if_neg hk']
        exact ih

theorem lookup_append_one (t : Table) (k k' : String) (col : List Cell)
    (h : k' ≠ k) :
    lookup_col (t ++ [(k, col)]) k' = lookup_col t k' := by
  induction t with
  | nil => simp [lookup_col, (Ne.symm h : ¬ k = k')]
  | cons x t ih =>
    obtain ⟨n, c0⟩ := x
    by_cases hn : n = k'
    · simp [lookup_col, hn]
    · simp only [List.cons_append, lookup_col, if_neg hn]
      exact ih

theorem lookup_upsert_ne (t : Table) (k k' : String) (col : List Cell)
    (h : k' ≠ k) :
    lookup_col (upsert t k col) k' = lookup_col t k' := by
  unfold upsert
  by_cases ht : t.any (fun e => e.1 = k)
  · rw [if_pos ht]
    exact lookup_map_update_ne t k k' col h
  · rw [if_neg ht]
    exact lookup_append_one t k k' col h

theorem map_fst_map_update (t : Table) (k : String) (col : List Cell) :
    (t.map (fun e => if e.1 = k then (k, col) else e)).map Prod.fst =
      t.map Prod.fst := by
  rw [List.map_map]
  apply List.map_congr_left
  intro e _
  by_cases h : e.1 = k <;> simp [h]

theorem any_key_iff (t : Table) (k : String) :
    (t.any (fun e => e.1 = k)) = true ↔ k ∈ t.map Prod.fst := by
  simp only [List.any_eq_true, List.mem_map, decide_eq_true_eq]

theorem map_fst_upsert (t : Table) (k : String) (col : List Cell) :
    (upsert t k col).map Prod.fst =
      if k ∈ t.map Prod.fst then t.map Prod.fst else t.map Prod.fst ++ [k] := by
  unfold upsert
  by_cases ht : t.any (fun e => e.1 = k)
  · rw [if_pos ht, if_pos ((any_key_iff t k).mp ht), map_fst_map_update]
  · rw [if_neg ht, if_neg (fun hm => ht ((any_key_iff t k).mpr hm))]
    simp

theorem nodup_upsert (t : Table) (k : String) (col : List Cell)
    (h : (t.map Prod.fst).Nodup) :
    ((upsert t k col).map Prod.fst).Nodup := by
  rw [map_fst_upsert]
  by_cases hm : k ∈ t.map Prod.fst
  · rwa [if_pos hm]
  · rw [if_neg hm]
    rw [List.nodup_append]
    refine ⟨h, List.nodup_singleton k, ?_⟩
    intro a ha hb
    rw [List.mem_singleton] at hb
    subst hb
    exact hm ha

theorem upsert_eq_self (t : Table) (k : String) (col : List Cell)
    (hnodup : (t.map Prod.fst).Nodup) (h : lookup_col t k = some col) :
    upsert t k col = t := by
  induction t with
  | nil => simp [lookup_col] at h
  | cons x t ih =>
    obtain ⟨n, c0⟩ := x
    simp only [List.map_cons, List.nodup_cons] at hnodup
    by_cases hn : n = k
    · subst hn
      rw [lookup_col, if_pos rfl] at h
      injection h with h
      subst h
      rw [upsert_cons_eq]
      congr 1
      have hmap : t.map (fun e => if e.1 = n then (n, c0) else e) = t.map id := by
        apply List.map_congr_left
        intro e he
        have he1 : ¬ e.1 = n :=
          fun hh => hnodup.1 (hh ▸ List.mem_map_of_mem Prod.fst he)
        simp [he1]
      rw [hmap, List.map_id]
    · rw [upsert_cons_of_ne _ _ _ _ hn]
      rw [lookup_col, if_neg hn] at h
      rw [ih hnodup.2 h]

theorem string_ne_append_of_pos (c s : String) (h : 0 < s.length) :
    c ≠ c ++ s := by
  intro hc
  have := congrArg String.length hc
  rw [String.length_append] at this
  omega

theorem ne_append_outlier (c : String) : c ≠ c ++ "_OUTLIER" :=
  string_ne_append_of_pos c "_OUTLIER" (by decide)

theorem ne_append_missing (c : String) : c ≠ c ++ "_MISSING" :=
  string_ne_append_of_pos c "_MISSING" (by decide)

theorem cellLe_refl (a : Cell) : cellLe a a = true := by
  cases a <;> simp [cellLe]

theorem cellLe_total (a b : Cell) : cellLe a b = true ∨ cellLe b a = true := by
  cases a <;> cases b <;> simp [cellLe, cellRank] <;>
    first
      | exact le_total _ _
      | (rename_i x y; cases x <;> cases y <;> simp)

theorem cellLe_trans : ∀ {a b c : Cell},
    cellLe a b = true → cellLe b c = true → cellLe a c = true := by
  intro a b c h1 h2
  cases a <;> cases b <;> cases c <;> simp_all [cellLe, cellRank] <;>
    first
      | exact le_trans h1 h2
      | (rename_i x y z; cases x <;> cases y <;> cases z <;> simp_all)

theorem foldl_min_spec (rest : List Cell) (a : Cell) :
    (rest.foldl (fun m x => if cellLe x m then x else m) a = a ∨
      rest.foldl (fun m x => if cellLe x m then x else m) a ∈ rest) ∧
    cellLe (rest.foldl (fun m x => if cellLe x m then x else m) a) a = true ∧
    ∀ x ∈ rest, cellLe (rest.foldl (fun m x => if cellLe x m then x else m) a) x = true := by
  induction rest generalizing a with
  | nil => exact ⟨Or.inl rfl, cellLe_refl a, by simp⟩
  | cons b rest ih =>
    simp only [List.foldl_cons]
    by_cases hba : cellLe b a = true
    · rw [if_pos hba]
      obtain ⟨hmem, hle, hall⟩ := ih b
      refine ⟨?_, cellLe_trans hle hba, ?_⟩
      · rcases hmem with h | h
        · exact Or.inr (by rw [h]; exact List.mem_cons_self b rest)
        · exact Or.inr (List.mem_cons_of_mem b h)
      · intro x hx
        rcases List.mem_cons.mp hx with h | h
        · rw [h]; exact hle
        · exact hall x h
    · rw [if_neg hba]
      obtain ⟨hmem, hle, hall⟩ := ih a
      have hab : cellLe a b = true := by
        rcases cellLe_total a b with h | h
        · exact h
        · exact absurd h hba
      refine ⟨?_, hle, ?_⟩
      · rcases hmem with h | h
        · exact Or.inl h
        · exact Or.inr (List.mem_cons_of_mem b h)
      · intro x hx
        rcases List.mem_cons.mp hx with h | h
        · rw [h]; exact cellLe_trans hle hab
        · exact hall x h

theorem minCell_spec (l : List Cell) (m : Cell) (h : minCell l = some m) :
    m ∈ l ∧ ∀ x ∈ l, cellLe m x = true := by
  match l with
  | [] => simp [minCell] at h
  | a :: rest =>
    simp only [minCell, Option.some.injEq] at h
    subst h
    obtain ⟨hmem, hle, hall⟩ := foldl_min_spec rest a
    refine ⟨?_, ?_⟩
    · rcases hmem with h | h
      · rw [h]; exact List.mem_cons_self a rest
      · exact List.mem_cons_of_mem a h
    · intro x hx
      rcases List.mem_cons.mp hx with h | h
      · rw [h]; exact hle
      · exact hall x h

theorem mem_dedupFirstAux (seen l : List Cell) (x : Cell)
    (h : x ∈ dedupFirstAux seen l) : x ∈ l := by
  induction l generalizing seen with
  | nil => simp [dedupFirstAux] at h
  | cons c rest ih =>
    simp only [dedupFirstAux] at h
    by_cases hc : c ∈ seen
    · rw [if_pos hc] at h
      exact List.mem_cons_of_mem c (ih seen h)
    · rw [if_neg hc] at h
      rcases List.mem_cons.mp h with h' | h'
      · exact h' ▸ List.mem_cons_self c rest
      · exact List.mem_cons_of_mem c (ih (c :: seen) h')

theorem mem_modeCandidates (col : List Cell) (v : Cell)
    (h : v ∈ modeCandidates col) :
    v ∈ nonNaCells col ∧
      ∀ w ∈ nonNaCells col,
        cellFreq (nonNaCells col) w ≤ cellFreq (nonNaCells col) v := by
  unfold modeCandidates at h
  have h' := List.mem_filter.mp h
  refine ⟨mem_dedupFirstAux [] _ v h'.1, ?_⟩
  intro w hw
  have := h'.2
  rw [List.all_eq_true] at this
  simpa using this w hw

theorem pandas_mode_first_spec (col : List Cell) (m : Cell)
    (h : pandas_mode_first col = some m) :
    (m ∈ nonNaCells col ∧
      ∀ w ∈ nonNaCells col,
        cellFreq (nonNaCells col) w ≤ cellFreq (nonNaCells col) m) ∧
    ∀ v ∈ modeCandidates col, cellLe m v = true := by
  unfold pandas_mode_first at h
  obtain ⟨hmem, hall⟩ := minCell_spec _ m h
  exact ⟨mem_modeCandidates col m hmem, hall⟩

theorem standardizeCol_idem (col : List Cell) :
    standardizeCol (standardizeCol col) = standardizeCol col := by
  unfold standardizeCol
  rw [List.map_map]
  apply List.map_congr_left
  intro c _
  show Cell.str (Py.title (Py.strip (cellToStr
      (Cell.str (Py.title (Py.strip (cellToStr c))))))) = _
  rw [show cellToStr (Cell.str (Py.title (Py.strip (cellToStr c)))) =
    Py.title (Py.strip (cellToStr c)) from rfl]
  rw [Py.title_strip_title_strip]

theorem cellToDatetime_fixpoint (pd : String → Option ℚ) (c d : Cell)
    (h : cellToDatetime pd c = some d) : cellToDatetime pd d = some d := by
  cases c with
  | na =>
    simp only [cellToDatetime, Option.some.injEq] at h
    subst h; rfl
  | num q =>
    simp only [cellToDatetime, Option.some.injEq] at h
    subst h; rfl
  | str s =>
    simp only [cellToDatetime] at h
    cases hp : pd s with
    | none => rw [hp] at h; simp at h
    | some x =>
      rw [hp] at h
      simp only [Option.map_some', Option.some.injEq] at h
      subst h; rfl
  | bool b => simp [cellToDatetime] at h
  | date x =>
    simp only [cellToDatetime, Option.some.injEq] at h
    subst h; rfl

theorem toDatetime_idem (pd : String → Option ℚ) (col dcol : List Cell)
    (h : toDatetime pd col = some dcol) : toDatetime pd dcol = some dcol := by
  unfold toDatetime at h ⊢
  induction col generalizing dcol with
  | nil =>
    simp only [List.mapM_nil, pure, Option.some.injEq] at h
    subst h; rfl
  | cons c rest ih =>
    rw [List.mapM_cons] at h
    cases hc : cellToDatetime pd c with
    | none => rw [hc] at h; simp at h
    | some d =>
      rw [hc] at h
      cases hr : rest.mapM (cellToDatetime pd) with
      | none => rw [hr] at h; simp at h
      | some ds =>
        rw [hr] at h
        simp only [Option.bind_eq_bind, Option.some_bind, pure,
          Option.some.injEq] at h
        subst h
        rw [List.mapM_cons, cellToDatetime_fixpoint pd c d hc, ih ds hr]
        rfl

/-- The final value of column `c` after one pass of the cleaning loop,
when nothing is missing. -/
def colClean (parse_date : String → Option ℚ) (p : Profile) (ty : ColType)
    (col : List Cell) : List Cell :=
  match ty with
  | .categorical =>
    if "Inconsistent capitalization or spacing" ∈ p.potential_issues then
      standardizeCol col
    else col
  | .date =>
    match toDatetime parse_date col with
    | some dcol => dcol
    | none => col
  | _ => col

/-- The insights one pass appends for column `c`, when nothing is missing. -/
def colDelta (parse_date : String → Option ℚ) (c : String) (p : Profile)
    (ty : ColType) (col : List Cell) : List Insight :=
  match ty with
  | .numerical =>
    if 0 < p.outlier_count then
      [.flaggedOutliers c ((iqr_outlier_mask col).count (.bool true))]
    else []
  | .categorical =>
    if "Inconsistent capitalization or spacing" ∈ p.potential_issues then
      [.standardized c]
    else []
  | .text => []
  | .date =>
    match toDatetime parse_date col with
    | some _ => []
    | none => [.dateConvertFailed c]

/-- The table produced by one pass over column `c`, when nothing is
missing. -/
def stepTable (parse_date : String → Option ℚ) (t : Table) (c : String)
    (p : Profile) (ty : ColType) (col : List Cell) : Table :=
  match ty with
  | .numerical =>
    if 0 < p.outlier_count then upsert t (c ++ "_OUTLIER") (iqr_outlier_mask col)
    else t
  | .categorical =>
    if "Inconsistent capitalization or spacing" ∈ p.potential_issues then
      upsert t c (standardizeCol col)
    else t
  | .text => t
  | .date =>
    match toDatetime parse_date col with
    | some dcol => upsert t c dcol
    | none => t

theorem clean_step_zero_missing (pd : String → Option ℚ) (t : Table)
    (ins : List Insight) (c : String) (p : Profile) (ty : ColType) (col : List Cell)
    (hty : p.column_type = some ty) (hmc : p.missing_count = 0)
    (hcol : lookup_col t c = some col) :
    clean_step pd (t, ins) (c, p) =
      some (stepTable pd t c p ty col, ins ++ colDelta pd c p ty col) := by
  cases ty with
  | numerical =>
    by_cases hoc : 0 < p.outlier_count
    · simp [clean_step, hty, missing_step, hmc, standardize_step, date_convert_step,
        outlier_step, hoc, hcol, stepTable, colDelta]
    · simp [clean_step, hty, missing_step, hmc, standardize_step, date_convert_step,
        outlier_step, hoc, stepTable, colDelta]
  | categorical =>
    by_cases hflag : "Inconsistent capitalization or spacing" ∈ p.potential_issues
    · simp [clean_step, hty, missing_step, hmc, standardize_step, date_convert_step,
        outlier_step, hflag, hcol, stepTable, colDelta]
    · simp [clean_step, hty, missing_step, hmc, standardize_step, date_convert_step,
        outlier_step, hflag, stepTable, colDelta]
  | text =>
    simp [clean_step, hty, missing_step, hmc, standardize_step, date_convert_step,
      outlier_step, stepTable, colDelta]
  | date =>
    cases hdt : toDatetime pd col with
    | some dcol =>
      simp [clean_step, hty, missing_step, hmc, standardize_step, date_convert_step,
        outlier_step, hcol, hdt, stepTable, colDelta]
    | none =>
      simp [clean_step, hty, missing_step, hmc, standardize_step, date_convert_step,
        outlier_step, hcol, hdt, stepTable, colDelta]

theorem clean_step_replay (pd : String → Option ℚ) (t1 : Table)
    (ins : List Insight) (c : String) (p : Profile) (ty : ColType) (col : List Cell)
    (hty : p.column_type = some ty) (hmc : p.missing_count = 0)
    (hnodup : (t1.map Prod.fst).Nodup)
    (hcol : lookup_col t1 c = some (colClean pd p ty col))
    (hout : ty = .numerical → 0 < p.outlier_count →
      lookup_col t1 (c ++ "_OUTLIER") = some (iqr_outlier_mask col)) :
    clean_step pd (t1, ins) (c, p) = some (t1, ins ++ colDelta pd c p ty col) := by
  cases ty with
  | numerical =>
    have hcol' : lookup_col t1 c = some col := by simpa [colClean] using hcol
    by_cases hoc : 0 < p.outlier_count
    · have h1 := hout rfl hoc
      have h2 : upsert t1 (c ++ "_OUTLIER") (iqr_outlier_mask col) = t1 :=
        upsert_eq_self _ _ _ hnodup h1
      simp [clean_step, hty, missing_step, hmc, standardize_step, date_convert_step,
        outlier_step, hoc, hcol', colDelta, h2]
    · simp [clean_step, hty, missing_step, hmc, standardize_step, date_convert_step,
        outlier_step, hoc, colDelta]
  | categorical =>
    by_cases hflag : "Inconsistent capitalization or spacing" ∈ p.potential_issues
    · have hcol' : lookup_col t1 c = some (standardizeCol col) := by
        simpa [colClean, hflag] using hcol
      have h2 : upsert t1 c (standardizeCol (standardizeCol col)) = t1 := by
        rw [standardizeCol_idem]
        exact upsert_eq_self _ _ _ hnodup hcol'
      simp [clean_step, hty, missing_step, hmc, standardize_step, date_convert_step,
        outlier_step, hflag, hcol', colDelta, h2]
    · simp [clean_step, hty, missing_step, hmc, standardize_step, date_convert_step,
        outlier_step, hflag, colDelta]
  | text =>
    simp [clean_step, hty, missing_step, hmc, standardize_step, date_convert_step,
      outlier_step, colDelta]
  | date =>
    cases hdt : toDatetime pd col with
    | some dcol =>
      have hcol' : lookup_col t1 c = some dcol := by simpa [colClean, hdt] using hcol
      have hdd : toDatetime pd dcol = some dcol := toDatetime_idem pd col dcol hdt
      have h2 : upsert t1 c dcol = t1 := upsert_eq_self _ _ _ hnodup hcol'
      simp [clean_step, hty, missing_step, hmc, standardize_step, date_convert_step,
        outlier_step, hcol', hdd, h2, colDelta, hdt]
    | none =>
      have hcol' : lookup_col t1 c = some col := by simpa [colClean, hdt] using hcol
      simp [clean_step, hty, missing_step, hmc, standardize_step, date_convert_step,
        outlier_step, hcol', hdt, colDelta]

theorem string_append_right_cancel {a b s : String} (h : a ++ s = b ++ s) :
    a = b := by
  have hd : (a ++ s).data = (b ++ s).data := by rw [h]
  rw [String.data_append, String.data_append] at hd
  have h2 := List.append_cancel_right hd
  cases a
  cases b
  exact congrArg String.mk h2

theorem clean_step_shift (pd : String → Option ℚ) (t : Table) (ins : List Insight)
    (e : String × Profile) :
    clean_step pd (t, ins) e =
      (clean_step pd (t, []) e).map (fun r => (r.1, ins ++ r.2)) := by
  obtain ⟨c, p⟩ := e
  cases hty : p.column_type with
  | none => simp [clean_step, hty]
  | some ty =>
    simp only [clean_step, hty]
    cases hm : missing_step pd t c p ty with
    | none => rfl
    | some s1 =>
      simp only [Option.some_bind]
      cases hs : standardize_step s1.1 c p ty with
      | none => rfl
      | some s2 =>
        simp only [Option.some_bind]
        cases ho : outlier_step (date_convert_step pd s2.1 c ty).1 c p ty with
        | none => rfl
        | some s4 => simp

theorem clean_fold_shift (pd : String → Option ℚ) :
    ∀ (profiles : List (String × Profile)) (t : Table) (ins : List Insight),
    clean_fold pd (t, ins) profiles =
      (clean_fold pd (t, ([] : List Insight)) profiles).map
        (fun r => (r.1, ins ++ r.2)) := by
  intro profiles
  induction profiles with
  | nil => intro t ins; simp [clean_fold]
  | cons e rest ih =>
    intro t ins
    simp only [clean_fold]
    rw [clean_step_shift pd t ins e, clean_step_shift pd t [] e]
    cases clean_step pd (t, []) e with
    | none => rfl
    | some s1 =>
      simp only [Option.map_some', Option.some_bind, List.nil_append]
      rw [ih s1.1 (ins ++ s1.2), ih s1.1 s1.2]
      cases clean_fold pd (s1.1, ([] : List Insight)) rest with
      | none => rfl
      | some r => simp

theorem stepTable_lookup_self (pd : String → Option ℚ) (t : Table) (c : String)
    (p : Profile) (ty : ColType) (col : List Cell)
    (hcol : lookup_col t c = some col) :
    lookup_col (stepTable pd t c p ty col) c = some (colClean pd p ty col) := by
  cases ty with
  | numerical =>
    by_cases hoc : 0 < p.outlier_count
    · simp only [stepTable, if_pos hoc, colClean]
      rw [lookup_upsert_ne _ _ _ _ (ne_append_outlier c)]
      exact hcol
    · simpa [stepTable, hoc, colClean] using hcol
  | categorical =>
    by_cases hflag : "Inconsistent capitalization or spacing" ∈ p.potential_issues
    · simp only [stepTable, if_pos hflag, colClean, if_pos hflag]
      exact lookup_upsert_self _ _ _
    · simpa [stepTable, hflag, colClean] using hcol
  | text => simpa [stepTable, colClean] using hcol
  | date =>
    cases hdt : toDatetime pd col with
    | some dcol =>
      simp only [stepTable, hdt, colClean]
      exact lookup_upsert_self _ _ _
    | none => simpa [stepTable, hdt, colClean] using hcol

theorem stepTable_lookup_out (pd : String → Option ℚ) (t : Table) (c : String)
    (p : Profile) (col : List Cell) (hoc : 0 < p.outlier_count) :
    lookup_col (stepTable pd t c p .numerical col) (c ++ "_OUTLIER") =
      some (iqr_outlier_mask col) := by
  simp only [stepTable, if_pos hoc]
  exact lookup_upsert_self _ _ _

theorem clean_step_writes (pd : String → Option ℚ) (t : Table) (ins : List Insight)
    (e : String × Profile) (st' : Table × List Insight)
    (hmc : e.2.missing_count = 0)
    (hstep : clean_step pd (t, ins) e = some st') :
    (∀ k, k ≠ e.1 → k ≠ e.1 ++ "_OUTLIER" → lookup_col st'.1 k = lookup_col t k) ∧
    ((t.map Prod.fst).Nodup → (st'.1.map Prod.fst).Nodup) ∧
    (∀ i ∈ st'.2, i ∈ ins ∨ i.isImputation = false) := by
  obtain ⟨c, p⟩ := e
  cases hty : p.column_type with
  | none =>
    simp only [clean_step, hty, Option.some.injEq] at hstep
    subst hstep
    refine ⟨fun k _ _ => rfl, fun h => h, ?_⟩
    intro i hi
    rcases List.mem_append.mp hi with h | h
    · exact Or.inl h
    · simp only [List.mem_singleton] at h
      subst h
      exact Or.inr rfl
  | some ty =>
    cases hcol : lookup_col t c with
    | some col =>
      rw [clean_step_zero_missing pd t ins c p ty col hty hmc hcol] at hstep
      simp only [Option.some.injEq] at hstep
      subst hstep
      refine ⟨?_, ?_, ?_⟩
      · intro k hk1 hk2
        cases ty with
        | numerical =>
          by_cases hoc : 0 < p.outlier_count
          · simp only [stepTable, if_pos hoc]
            exact lookup_upsert_ne _ _ _ _ hk2
          · simp [stepTable, hoc]
        | categorical =>
          by_cases hflag : "Inconsistent capitalization or spacing" ∈ p.potential_issues
          · simp only [stepTable, if_pos hflag]
            exact lookup_upsert_ne _ _ _ _ hk1
          · simp [stepTable, hflag]
        | text => simp [stepTable]
        | date =>
          cases hdt : toDatetime pd col with
          | some dcol =>
            simp only [stepTable, hdt]
            exact lookup_upsert_ne _ _ _ _ hk1
          | none => simp [stepTable, hdt]
      · intro hnd
        cases ty with
        | numerical =>
          by_cases hoc : 0 < p.outlier_count
          · simp only [stepTable, if_pos hoc]
            exact nodup_upsert _ _ _ hnd
          · simpa [stepTable, hoc] using hnd
        | categorical =>
          by_cases hflag : "Inconsistent capitalization or spacing" ∈ p.potential_issues
          · simp only [stepTable, if_pos hflag]
            exact nodup_upsert _ _ _ hnd
          · simpa [stepTable, hflag] using hnd
        | text => simpa [stepTable] using hnd
        | date =>
          cases hdt : toDatetime pd col with
          | some dcol =>
            simp only [stepTable, hdt]
            exact nodup_upsert _ _ _ hnd
          | none => simpa [stepTable, hdt] using hnd
      · intro i hi
        rcases List.mem_append.mp hi with h | h
        · exact Or.inl h
        · right
          cases ty with
          | numerical =>
            by_cases hoc : 0 < p.outlier_count
            · simp only [colDelta, if_pos hoc, List.mem_singleton] at h
              subst h; rfl
            · simp [colDelta, hoc] at h
          | categorical =>
            by_cases hflag : "Inconsistent capitalization or spacing" ∈ p.potential_issues
            · simp only [colDelta, if_pos hflag, List.mem_singleton] at h
              subst h; rfl
            · simp [colDelta, hflag] at h
          | text => simp [colDelta] at h
          | date =>
            cases hdt : toDatetime pd col with
            | some dcol => simp [colDelta, hdt] at h
            | none =>
              simp only [colDelta, hdt, List.mem_singleton] at h
              subst h; rfl
    | none =>
      have hmc' : p.missing_count = 0 := hmc
      cases ty with
      | numerical =>
        by_cases hoc : 0 < p.outlier_count
        · have hv : clean_step pd (t, ins) (c, p) = none := by
            simp [clean_step, hty, missing_step, hmc', standardize_step,
              date_convert_step, outlier_step, hoc, hcol]
          rw [hv] at hstep
          exact absurd hstep (by simp)
        · have hv : clean_step pd (t, ins) (c, p) = some (t, ins) := by
            simp [clean_step, hty, missing_step, hmc', standardize_step,
              date_convert_step, outlier_step, hoc]
          rw [hv] at hstep
          have h2 := Option.some.inj hstep
          subst h2
          exact ⟨fun k _ _ => rfl, fun h => h, fun i hi => Or.inl hi⟩
      | categorical =>
        by_cases hflag : "Inconsistent capitalization or spacing" ∈ p.potential_issues
        · have hv : clean_step pd (t, ins) (c, p) = none := by
            simp [clean_step, hty, missing_step, hmc', standardize_step,
              date_convert_step, outlier_step, hflag, hcol]
          rw [hv] at hstep
          exact absurd hstep (by simp)
        · have hv : clean_step pd (t, ins) (c, p) = some (t, ins) := by
            simp [clean_step, hty, missing_step, hmc', standardize_step,
              date_convert_step, outlier_step, hflag]
          rw [hv] at hstep
          have h2 := Option.some.inj hstep
          subst h2
          exact ⟨fun k _ _ => rfl, fun h => h, fun i hi => Or.inl hi⟩
      | text =>
        have hv : clean_step pd (t, ins) (c, p) = some (t, ins) := by
          simp [clean_step, hty, missing_step, hmc', standardize_step,
            date_convert_step, outlier_step]
        rw [hv] at hstep
        have h2 := Option.some.inj hstep
        subst h2
        exact ⟨fun k _ _ => rfl, fun h => h, fun i hi => Or.inl hi⟩
      | date =>
        have hv : clean_step pd (t, ins) (c, p) =
            some (t, ins ++ [Insight.dateConvertFailed c]) := by
          simp [clean_step, hty, missing_step, hmc', standardize_step,
            date_convert_step, outlier_step, hcol]
        rw [hv] at hstep
        have h2 := Option.some.inj hstep
        subst h2
        refine ⟨fun k _ _ => rfl, fun h => h, ?_⟩
        intro i hi
        rcases List.mem_append.mp hi with h | h
        · exact Or.inl h
        · simp only [List.mem_singleton] at h
          subst h
          exact Or.inr rfl

theorem clean_fold_facts (pd : String → Option ℚ) :
    ∀ (profiles : List (String × Profile)) (t : Table) (ins : List Insight)
      (r : Table × List Insight),
    (∀ e ∈ profiles, e.2.missing_count = 0) →
    clean_fold pd (t, ins) profiles = some r →
    (∀ k, (∀ e ∈ profiles, k ≠ e.1 ∧ k ≠ e.1 ++ "_OUTLIER") →
      lookup_col r.1 k = lookup_col t k) ∧
    ((t.map Prod.fst).Nodup → (r.1.map Prod.fst).Nodup) ∧
    (∀ i ∈ r.2, i ∈ ins ∨ i.isImputation = false) := by
  intro profiles
  induction profiles with
  | nil =>
    intro t ins r _ hrun
    simp only [clean_fold, Option.some.injEq] at hrun
    subst hrun
    exact ⟨fun _ _ => rfl, fun h => h, fun i hi => Or.inl hi⟩
  | cons e rest ih =>
    intro t ins r hmc hrun
    simp only [clean_fold] at hrun
    cases hstep : clean_step pd (t, ins) e with
    | none => rw [hstep] at hrun; simp at hrun
    | some s1 =>
      rw [hstep] at hrun
      simp only [Option.some_bind] at hrun
      have hw := clean_step_writes pd t ins e s1
        (hmc e (List.mem_cons_self e rest)) hstep
      have hr := ih s1.1 s1.2 r
        (fun e' he' => hmc e' (List.mem_cons_of_mem e he')) hrun
      refine ⟨?_, ?_, ?_⟩
      · intro k hk
        rw [hr.1 k (fun e' he' => hk e' (List.mem_cons_of_mem e he'))]
        exact hw.1 k (hk e (List.mem_cons_self e rest)).1
          (hk e (List.mem_cons_self e rest)).2
      · intro hnd
        exact hr.2.1 (hw.2.1 hnd)
      · intro i hi
        rcases hr.2.2 i hi with h | h
        · rcases hw.2.2 i h with h' | h'
          · exact Or.inl h'
          · exact Or.inr h'
        · exact Or.inr h

theorem clean_run_replay (pd : String → Option ℚ) :
    ∀ (profiles : List (String × Profile)) (t t1 : Table) (δ : List Insight),
    (t.map Prod.fst).Nodup →
    (profiles.map Prod.fst).Nodup →
    (∀ a ∈ profiles.map Prod.fst, ∀ b ∈ profiles.map Prod.fst,
      a ≠ b ++ "_OUTLIER") →
    (∀ e ∈ profiles, e.2.missing_count = 0 ∧ (lookup_col t e.1).isSome) →
    clean_fold pd (t, ([] : List Insight)) profiles = some (t1, δ) →
    clean_fold pd (t1, ([] : List Insight)) profiles = some (t1, δ) := by
  intro profiles
  induction profiles with
  | nil =>
    intro t t1 δ _ _ _ _ hrun
    simp only [clean_fold, Option.some.injEq, Prod.mk.injEq] at hrun
    obtain ⟨h1, h2⟩ := hrun
    subst h1; subst h2
    rfl
  | cons e rest ih =>
    rintro t t1 δ hndT hndP hcond hgood hrun
    obtain ⟨c, p⟩ := e
    obtain ⟨hmc, hlook⟩ := hgood (c, p) (List.mem_cons_self _ _)
    have hmc' : p.missing_count = 0 := hmc
    have hndP' := hndP
    rw [List.map_cons] at hndP'
    obtain ⟨hcnot, hndrest⟩ := List.nodup_cons.mp hndP'
    have hcondR : ∀ a ∈ rest.map Prod.fst, ∀ b ∈ rest.map Prod.fst,
        a ≠ b ++ "_OUTLIER" := by
      intro a ha b hb
      refine hcond a ?_ b ?_
      · rw [List.map_cons]; exact List.mem_cons_of_mem _ ha
      · rw [List.map_cons]; exact List.mem_cons_of_mem _ hb
    have hne1 : ∀ e' ∈ rest, e'.1 ≠ c := by
      intro e' he' h
      have hmem := List.mem_map_of_mem Prod.fst he'
      rw [h] at hmem
      exact hcnot hmem
    have hne2 : ∀ e' ∈ rest, e'.1 ≠ c ++ "_OUTLIER" := by
      intro e' he'
      refine hcond e'.1 ?_ c ?_
      · rw [List.map_cons]
        exact List.mem_cons_of_mem _ (List.mem_map_of_mem _ he')
      · rw [List.map_cons]
        exact List.mem_cons_self _ _
    simp only [clean_fold] at hrun ⊢
    cases hty : p.column_type with
    | none =>
      have hv : ∀ (u : Table), clean_step pd (u, ([] : List Insight)) (c, p) =
          some (u, [Insight.skipped c]) := by
        intro u; simp [clean_step, hty]
      rw [hv t] at hrun
      simp only [Option.some_bind] at hrun
      rw [clean_fold_shift] at hrun
      cases hr0 : clean_fold pd (t, ([] : List Insight)) rest with
      | none => rw [hr0] at hrun; simp at hrun
      | some r0 =>
        obtain ⟨r0t, r0δ⟩ := r0
        rw [hr0] at hrun
        simp only [Option.map_some', Option.some.injEq, Prod.mk.injEq] at hrun
        obtain ⟨h1, h2⟩ := hrun
        subst h1
        subst h2
        have hIH := ih t r0t r0δ hndT hndrest hcondR
          (fun e' he' => hgood e' (List.mem_cons_of_mem _ he')) hr0
        rw [hv r0t]
        simp only [Option.some_bind]
        rw [clean_fold_shift, hIH]
        simp
    | some ty =>
      obtain ⟨col, hcol⟩ := Option.isSome_iff_exists.mp hlook
      have hchar := clean_step_zero_missing pd t [] c p ty col hty hmc' hcol
      rw [hchar] at hrun
      simp only [Option.some_bind, List.nil_append] at hrun
      rw [clean_fold_shift] at hrun
      cases hr0 : clean_fold pd (stepTable pd t c p ty col,
          ([] : List Insight)) rest with
      | none => rw [hr0] at hrun; simp at hrun
      | some r0 =>
        obtain ⟨r0t, r0δ⟩ := r0
        rw [hr0] at hrun
        simp only [Option.map_some', Option.some.injEq, Prod.mk.injEq] at hrun
        obtain ⟨h1, h2⟩ := hrun
        subst h1
        subst h2
        have hw := clean_step_writes pd t [] (c, p)
          (stepTable pd t c p ty col, colDelta pd c p ty col) hmc hchar
        have hndTa : ((stepTable pd t c p ty col).map Prod.fst).Nodup :=
          hw.2.1 hndT
        have hgoodR : ∀ e' ∈ rest, e'.2.missing_count = 0 ∧
            (lookup_col (stepTable pd t c p ty col) e'.1).isSome := by
          intro e' he'
          obtain ⟨hm, hl⟩ := hgood e' (List.mem_cons_of_mem _ he')
          refine ⟨hm, ?_⟩
          rw [hw.1 e'.1 (hne1 e' he') (hne2 e' he')]
          exact hl
        have hIH := ih (stepTable pd t c p ty col) r0t r0δ hndTa hndrest
          hcondR hgoodR hr0
        have hf := clean_fold_facts pd rest (stepTable pd t c p ty col) []
          (r0t, r0δ) (fun e' he' => (hgood e' (List.mem_cons_of_mem _ he')).1) hr0
        have hc_ne : ∀ e' ∈ rest, c ≠ e'.1 ++ "_OUTLIER" := by
          intro e' he'
          refine hcond c ?_ e'.1 ?_
          · rw [List.map_cons]; exact List.mem_cons_self _ _
          · rw [List.map_cons]
            exact List.mem_cons_of_mem _ (List.mem_map_of_mem _ he')
        have hT1c : lookup_col r0t c = some (colClean pd p ty col) := by
          have hcc := hf.1 c (fun e' he' =>
            ⟨fun h => hne1 e' he' h.symm, hc_ne e' he'⟩)
          rw [hcc]
          exact stepTable_lookup_self pd t c p ty col hcol
        have hT1out : ty = .numerical → 0 < p.outlier_count →
            lookup_col r0t (c ++ "_OUTLIER") = some (iqr_outlier_mask col) := by
          intro hty' hoc
          subst hty'
          have hcc := hf.1 (c ++ "_OUTLIER") (fun e' he' =>
            ⟨fun h => hne2 e' he' h.symm,
             fun h => hne1 e' he' (string_append_right_cancel h).symm⟩)
          rw [hcc]
          exact stepTable_lookup_out pd t c p col hoc
        have hndT1 : (r0t.map Prod.fst).Nodup := hf.2.1 hndTa
        have hreplay := clean_step_replay pd r0t [] c p ty col hty hmc'
          hndT1 hT1c hT1out
        rw [hreplay]
        simp only [Option.some_bind, List.nil_append]
        rw [clean_fold_shift, hIH]
        simp

/-- C5 counterexample: cleaning the already-cleaned `[1,2,3,4,100]` table a
second time with the same profile leaves the table unchanged but appends
the outlier-flagging insight again: the second run's insight list is
`[flaggedOutliers "x" 1]`, not the empty list the claim demands. -/
theorem c5_counterexample :
    clean_data (fun _ => none) [("x", ⟨some .numerical, 0, none, [], 1⟩)]
        [("x", [Cell.num 1, Cell.num 2, Cell.num 3, Cell.num 4, Cell.num 100])] =
      some ([("x", [Cell.num 1, Cell.num 2, Cell.num 3, Cell.num 4, Cell.num 100]),
             ("x_OUTLIER", [Cell.bool false, Cell.bool false, Cell.bool false,
               Cell.bool false, Cell.bool true])],
        [Insight.flaggedOutliers "x" 1]) ∧
    clean_data (fun _ => none) [("x", ⟨some .numerical, 0, none, [], 1⟩)]
        [("x", [Cell.num 1, Cell.num 2, Cell.num 3, Cell.num 4, Cell.num 100]),
         ("x_OUTLIER", [Cell.bool false, Cell.bool false, Cell.bool false,
           Cell.bool false, Cell.bool true])] =
      some ([("x", [Cell.num 1, Cell.num 2, Cell.num 3, Cell.num 4, Cell.num 100]),
             ("x_OUTLIER", [Cell.bool false, Cell.bool false, Cell.bool false,
               Cell.bool false, Cell.bool true])],
        [Insight.flaggedOutliers "x" 1]) ∧
    ([Insight.flaggedOutliers "x" 1] : List Insight) ≠ [] := by
  refine ⟨?_, ?_, by simp⟩ <;> with_unfolding_all rfl

/-- C5 amended: for every table with unique column labels, zero missing
values in every profiled column and matching profiles, where no profiled
name collides with a generated `<col>_OUTLIER` name, a second run of
`clean_data` on the cleaned table reproduces the first run exactly: the
table is unchanged, and the same insight list is appended again — it
contains no imputation insight, but it is not empty when a normalization /
outlier-flagging / failed-date-conversion branch ran (see the
counterexample), so the second run is idempotent on the table but not
silent on the insight log. -/
theorem c5_second_run_reproduces_first (pd : String → Option ℚ)
    (profiles : List (String × Profile)) (t t1 : Table) (ins1 : List Insight)
    (hndT : (t.map Prod.fst).Nodup)
    (hndP : (profiles.map Prod.fst).Nodup)
    (hcond : ∀ a ∈ profiles.map Prod.fst, ∀ b ∈ profiles.map Prod.fst,
      a ≠ b ++ "_OUTLIER")
    (hgood : ∀ e ∈ profiles, e.2.missing_count = 0 ∧
      ∃ col, lookup_col t e.1 = some col ∧ ∀ x ∈ col, x.isNa = false)
    (h1 : clean_data pd profiles t = some (t1, ins1)) :
    clean_data pd profiles t1 = some (t1, ins1) ∧
    ∀ i ∈ ins1, i.isImputation = false := by
  unfold clean_data at h1 ⊢
  constructor
  · refine clean_run_replay pd profiles t t1 ins1 hndT hndP hcond ?_ h1
    intro e he
    obtain ⟨hm, col, hc, -⟩ := hgood e he
    exact ⟨hm, by rw [hc]; rfl⟩
  · intro i hi
    have hf := clean_fold_facts pd profiles t [] (t1, ins1)
      (fun e he => (hgood e he).1) h1
    rcases hf.2.2 i hi with h | h
    · exact absurd h (List.not_mem_nil i)
    · exact h

/-- Witness for the amended C5 at the counterexample's concrete table. -/
theorem c5_second_run_reproduces_first_witness :
    clean_data (fun _ => none) [("x", ⟨some .numerical, 0, none, [], 1⟩)]
        [("x", [Cell.num 1, Cell.num 2, Cell.num 3, Cell.num 4, Cell.num 100]),
         ("x_OUTLIER", [Cell.bool false, Cell.bool false, Cell.bool false,
           Cell.bool false, Cell.bool true])] =
      some ([("x", [Cell.num 1, Cell.num 2, Cell.num 3, Cell.num 4, Cell.num 100]),
             ("x_OUTLIER", [Cell.bool false, Cell.bool false, Cell.bool false,
               Cell.bool false, Cell.bool true])],
        [Insight.flaggedOutliers "x" 1]) ∧
    ∀ i ∈ ([Insight.flaggedOutliers "x" 1] : List Insight),
      i.isImputation = false := by
  refine c5_second_run_reproduces_first (fun _ => none)
    [("x", ⟨some .numerical, 0, none, [], 1⟩)]
    [("x", [Cell.num 1, Cell.num 2, Cell.num 3, Cell.num 4, Cell.num 100])]
    [("x", [Cell.num 1, Cell.num 2, Cell.num 3, Cell.num 4, Cell.num 100]),
     ("x_OUTLIER", [Cell.bool false, Cell.bool false, Cell.bool false,
       Cell.bool false, Cell.bool true])]
    [Insight.flaggedOutliers "x" 1]
    (by simp) (by simp) ?_ ?_ ?_
  · intro a ha b hb
    simp only [List.map_cons, List.map_nil, List.mem_singleton] at ha hb
    subst ha; subst hb
    with_unfolding_all decide
  · intro e he
    simp only [List.mem_singleton] at he
    subst he
    exact ⟨rfl, [Cell.num 1, Cell.num 2, Cell.num 3, Cell.num 4, Cell.num 100],
      rfl, by decide⟩
  · with_unfolding_all rfl

/-- C6: for a numerical column whose profile has `outlier_count > 0`,
`clean_data` writes a boolean companion column `<col>_OUTLIER` in which an
entry is flagged true iff its post-imputation value `v` satisfies
`v < Q1 - 1.5*IQR` or `v > Q3 + 1.5*IQR`, with `Q1`/`Q3` the 25th/75th
percentiles of the already-imputed column values, and appends exactly one
outlier insight carrying the flagged row count; in particular for the
column `[1,2,3,4,100]`, `Q1 = 2`, `Q3 = 4` and only `100` is flagged. -/
theorem c6_outlier_flagging (parse_date : String → Option ℚ) (t : Table)
    (ins : List Insight) (c : String) (p : Profile) (col : List Cell)
    (hty : p.column_type = some .numerical)
    (hoc : 0 < p.outlier_count)
    (hcol : lookup_col t c = some col) :
    ∃ t' δ,
      clean_step parse_date (t, ins) (c, p) = some (t', ins ++ δ) ∧
      lookup_col t' (c ++ "_OUTLIER") =
        some (iqr_outlier_mask (imputedNumCol p col)) ∧
      lookup_col t' c = some (imputedNumCol p col) ∧
      δ.filter Insight.isOutlierFlag =
        [Insight.flaggedOutliers c
          ((iqr_outlier_mask (imputedNumCol p col)).count (Cell.bool true))] ∧
      (∀ (i : ℕ) (v : ℚ), (imputedNumCol p col)[i]? = some (Cell.num v) →
        (iqr_outlier_mask (imputedNumCol p col))[i]? =
          some (Cell.bool
            (decide (v < pandas_quantile (colNums (imputedNumCol p col)) (1/4)
                - 3/2 * (pandas_quantile (colNums (imputedNumCol p col)) (3/4)
                  - pandas_quantile (colNums (imputedNumCol p col)) (1/4)))
             || decide (pandas_quantile (colNums (imputedNumCol p col)) (3/4)
                + 3/2 * (pandas_quantile (colNums (imputedNumCol p col)) (3/4)
                  - pandas_quantile (colNums (imputedNumCol p col)) (1/4)) < v)))) ∧
      pandas_quantile [1, 2, 3, 4, 100] (1/4) = 2 ∧
      pandas_quantile [1, 2, 3, 4, 100] (3/4) = 4 ∧
      iqr_outlier_mask [.num 1, .num 2, .num 3, .num 4, .num 100] =
        [.bool false, .bool false, .bool false, .bool false, .bool true] := by
  have hq1 : pandas_quantile [1, 2, 3, 4, 100] (1/4) = 2 := by
    with_unfolding_all rfl
  have hq3 : pandas_quantile [1, 2, 3, 4, 100] (3/4) = 4 := by
    with_unfolding_all rfl
  have hmask : iqr_outlier_mask [.num 1, .num 2, .num 3, .num 4, .num 100] =
      [.bool false, .bool false, .bool false, .bool false, .bool true] := by
    with_unfolding_all rfl
  have hiff : ∀ (cl : List Cell) (i : ℕ) (v : ℚ), cl[i]? = some (Cell.num v) →
      (iqr_outlier_mask cl)[i]? =
        some (Cell.bool
          (decide (v < pandas_quantile (colNums cl) (1/4)
              - 3/2 * (pandas_quantile (colNums cl) (3/4)
                - pandas_quantile (colNums cl) (1/4)))
           || decide (pandas_quantile (colNums cl) (3/4)
              + 3/2 * (pandas_quantile (colNums cl) (3/4)
                - pandas_quantile (colNums cl) (1/4)) < v))) := by
    intro cl i v hv
    simp only [iqr_outlier_mask, List.getElem?_map, hv, Option.map_some']
  by_cases hmc : p.missing_count = 0
  · have himp : imputedNumCol p col = col := by simp [imputedNumCol, hmc]
    rw [himp]
    refine ⟨upsert t (c ++ "_OUTLIER") (iqr_outlier_mask col),
      [Insight.flaggedOutliers c ((iqr_outlier_mask col).count (Cell.bool true))],
      ?_, ?_, ?_, ?_, hiff col, hq1, hq3, hmask⟩
    · simp [clean_step, hty, missing_step, hmc, standardize_step, date_convert_step,
        outlier_step, hoc, hcol]
    · exact lookup_upsert_self _ _ _
    · rw [lookup_upsert_ne _ _ _ _ (ne_append_outlier c)]
      exact hcol
    · simp [Insight.isOutlierFlag]
  · refine ⟨upsert (upsert t c (imputedNumCol p col)) (c ++ "_OUTLIER")
        (iqr_outlier_mask (imputedNumCol p col)),
      [Insight.filledMedian c p.missing_count (num_median_val p col),
       Insight.flaggedOutliers c
         ((iqr_outlier_mask (imputedNumCol p col)).count (Cell.bool true))],
      ?_, ?_, ?_, ?_, hiff _, hq1, hq3, hmask⟩
    · simp [clean_step, hty, missing_step, hmc, standardize_step, date_convert_step,
        outlier_step, hoc, hcol, lookup_upsert_self]
    · exact lookup_upsert_self _ _ _
    · rw [lookup_upsert_ne _ _ _ _ (ne_append_outlier c)]
      exact lookup_upsert_self _ _ _
    · simp [Insight.isOutlierFlag]

/-- Witness for C6: the profile example column `[1,2,3,4,100]` with one
profiled outlier and nothing missing. -/
theorem c6_outlier_flagging_witness :
    ∃ t' δ,
      clean_step (fun _ => none)
          ([("x", [.num 1, .num 2, .num 3, .num 4, .num 100])], [])
          ("x", ⟨some .numerical, 0, none, [], 1⟩) = some (t', [] ++ δ) ∧
      lookup_col t' ("x" ++ "_OUTLIER") =
        some (iqr_outlier_mask (imputedNumCol ⟨some .numerical, 0, none, [], 1⟩
          [.num 1, .num 2, .num 3, .num 4, .num 100])) ∧
      lookup_col t' "x" = some (imputedNumCol ⟨some .numerical, 0, none, [], 1⟩
        [.num 1, .num 2, .num 3, .num 4, .num 100]) ∧
      δ.filter Insight.isOutlierFlag =
        [Insight.flaggedOutliers "x"
          ((iqr_outlier_mask (imputedNumCol ⟨some .numerical, 0, none, [], 1⟩
            [.num 1, .num 2, .num 3, .num 4, .num 100])).count (Cell.bool true))] ∧
      (∀ (i : ℕ) (v : ℚ), (imputedNumCol (⟨some .numerical, 0, none, [], 1⟩ : Profile)
          [.num 1, .num 2, .num 3, .num 4, .num 100])[i]? = some (Cell.num v) →
        (iqr_outlier_mask (imputedNumCol ⟨some .numerical, 0, none, [], 1⟩
            [.num 1, .num 2, .num 3, .num 4, .num 100]))[i]? =
          some (Cell.bool
            (decide (v < pandas_quantile (colNums (imputedNumCol
                (⟨some .numerical, 0, none, [], 1⟩ : Profile)
                [.num 1, .num 2, .num 3, .num 4, .num 100])) (1/4)
                - 3/2 * (pandas_quantile (colNums (imputedNumCol
                  (⟨some .numerical, 0, none, [], 1⟩ : Profile)
                  [.num 1, .num 2, .num 3, .num 4, .num 100])) (3/4)
                  - pandas_quantile (colNums (imputedNumCol
                    (⟨some .numerical, 0, none, [], 1⟩ : Profile)
                    [.num 1, .num 2, .num 3, .num 4, .num 100])) (1/4)))
             || decide (pandas_quantile (colNums (imputedNumCol
                  (⟨some .numerical, 0, none, [], 1⟩ : Profile)
                  [.num 1, .num 2, .num 3, .num 4, .num 100])) (3/4)
                + 3/2 * (pandas_quantile (colNums (imputedNumCol
                  (⟨some .numerical, 0, none, [], 1⟩ : Profile)
                  [.num 1, .num 2, .num 3, .num 4, .num 100])) (3/4)
                  - pandas_quantile (colNums (imputedNumCol
                    (⟨some .numerical, 0, none, [], 1⟩ : Profile)
                    [.num 1, .num 2, .num 3, .num 4, .num 100])) (1/4)) < v)))) ∧
      pandas_quantile [1, 2, 3, 4, 100] (1/4) = 2 ∧
      pandas_quantile [1, 2, 3, 4, 100] (3/4) = 4 ∧
      iqr_outlier_mask [.num 1, .num 2, .num 3, .num 4, .num 100] =
        [.bool false, .bool false, .bool false, .bool false, .bool true] :=
  c6_outlier_flagging (fun _ => none)
    [("x", [.num 1, .num 2, .num 3, .num 4, .num 100])] [] "x"
    ⟨some .numerical, 0, none, [], 1⟩
    [.num 1, .num 2, .num 3, .num 4, .num 100] rfl (by decide) rfl

/-- Modelled from the spec: the C7 tie-break read literally — "the most
frequent value, taking the value that comes first in frequency order when
several values tie for most frequent" — i.e. the first, in order of first
appearance in the column (the order of the value-frequency table), of the
values achieving maximal frequency. -/
def mode_first_in_frequency_order (col : List Cell) : Option Cell :=
  (modeCandidates col).head?

/-- C7 counterexample: for the column `["b","a","b","a",NA]` (profiled
categorical with one missing value) the code fills the missing entry with
`"a"` — pandas `mode()` returns the tied modes sorted ascending and
`.iloc[0]` takes the least — not with `"b"`, the tied mode that comes
first in frequency order. -/
theorem c7_counterexample :
    pandas_mode_first [.str "b", .str "a", .str "b", .str "a", .na] =
      some (.str "a") ∧
    mode_first_in_frequency_order [.str "b", .str "a", .str "b", .str "a", .na] =
      some (.str "b") ∧
    Cell.str "a" ≠ Cell.str "b" ∧
    clean_step (fun _ => none)
        ([("x", [.str "b", .str "a", .str "b", .str "a", .na])], [])
        ("x", ⟨some .categorical, 1, none, [], 0⟩) =
      some ([("x", [.str "b", .str "a", .str "b", .str "a", .str "a"])],
        [.filledMode "x" 1 (.str "a")]) := by
  refine ⟨?_, ?_, ?_, ?_⟩
  · with_unfolding_all rfl
  · with_unfolding_all rfl
  · decide
  · with_unfolding_all rfl

/-- C7 amended: for a categorical column with missing entries, `clean_data`
fills every missing entry with the column's mode — the most frequent
non-missing value, taking the least value (in the ascending order pandas
`mode()` returns) when several values tie for most frequent — and appends
exactly one imputation insight naming the column, the mode fill value and
the missing count. -/
theorem c7_categorical_mode_fill (parse_date : String → Option ℚ) (t : Table)
    (ins : List Insight) (c : String) (p : Profile) (col : List Cell) (m : Cell)
    (hty : p.column_type = some .categorical)
    (hmc : 0 < p.missing_count)
    (hcol : lookup_col t c = some col)
    (hmode : pandas_mode_first col = some m) :
    ∃ t' δ,
      clean_step parse_date (t, ins) (c, p) = some (t', ins ++ δ) ∧
      δ.filter Insight.isImputation = [Insight.filledMode c p.missing_count m] ∧
      lookup_col t' c = some (
        if "Inconsistent capitalization or spacing" ∈ p.potential_issues then
          standardizeCol (fillNa col m)
        else fillNa col m) ∧
      (∀ (i : ℕ) (x : Cell), col[i]? = some x →
        (fillNa col m)[i]? = some (if x.isNa then m else x)) ∧
      (m ∈ nonNaCells col ∧
        ∀ w ∈ nonNaCells col,
          cellFreq (nonNaCells col) w ≤ cellFreq (nonNaCells col) m) ∧
      (∀ v ∈ modeCandidates col, cellLe m v = true) := by
  have hmc0 : ¬ p.missing_count = 0 := by omega
  have hfill : ∀ (i : ℕ) (x : Cell), col[i]? = some x →
      (fillNa col m)[i]? = some (if x.isNa then m else x) := by
    intro i x hx
    simp only [fillNa, List.getElem?_map, hx, Option.map_some']
  obtain ⟨hfreq, hleast⟩ := pandas_mode_first_spec col m hmode
  by_cases hflag : "Inconsistent capitalization or spacing" ∈ p.potential_issues
  · refine ⟨upsert (upsert t c (fillNa col m)) c (standardizeCol (fillNa col m)),
      [Insight.filledMode c p.missing_count m, Insight.standardized c],
      ?_, ?_, ?_, hfill, ⟨hfreq.1, hfreq.2⟩, hleast⟩
    · simp [clean_step, hty, missing_step, hmc0, standardize_step, date_convert_step,
        outlier_step, hcol, hmode, hflag, lookup_upsert_self]
    · simp [Insight.isImputation]
    · rw [if_pos hflag]
      exact lookup_upsert_self _ _ _
  · refine ⟨upsert t c (fillNa col m),
      [Insight.filledMode c p.missing_count m],
      ?_, ?_, ?_, hfill, ⟨hfreq.1, hfreq.2⟩, hleast⟩
    · simp [clean_step, hty, missing_step, hmc0, standardize_step, date_convert_step,
        outlier_step, hcol, hmode, hflag]
    · simp [Insight.isImputation]
    · rw [if_neg hflag]
      exact lookup_upsert_self _ _ _

/-- Witness for C7 at the tie column: the least tied mode "a" is filled. -/
theorem c7_categorical_mode_fill_witness :
    ∃ t' δ,
      clean_step (fun _ => none)
          ([("x", [.str "b", .str "a", .str "b", .str "a", .na])], [])
          ("x", ⟨some .categorical, 1, none, [], 0⟩) = some (t', [] ++ δ) ∧
      δ.filter Insight.isImputation = [Insight.filledMode "x" 1 (.str "a")] ∧
      lookup_col t' "x" = some (
        if "Inconsistent capitalization or spacing" ∈
            (⟨some .categorical, 1, none, [], 0⟩ : Profile).potential_issues then
          standardizeCol (fillNa [.str "b", .str "a", .str "b", .str "a", .na] (.str "a"))
        else fillNa [.str "b", .str "a", .str "b", .str "a", .na] (.str "a")) ∧
      (∀ (i : ℕ) (x : Cell), ([.str "b", .str "a", .str "b", .str "a", .na] : List Cell)[i]? = some x →
        (fillNa [.str "b", .str "a", .str "b", .str "a", .na] (.str "a"))[i]? =
          some (if x.isNa then .str "a" else x)) ∧
      (Cell.str "a" ∈ nonNaCells [.str "b", .str "a", .str "b", .str "a", .na] ∧
        ∀ w ∈ nonNaCells [.str "b", .str "a", .str "b", .str "a", .na],
          cellFreq (nonNaCells [.str "b", .str "a", .str "b", .str "a", .na]) w ≤
            cellFreq (nonNaCells [.str "b", .str "a", .str "b", .str "a", .na])
              (.str "a")) ∧
      (∀ v ∈ modeCandidates [.str "b", .str "a", .str "b", .str "a", .na],
        cellLe (.str "a") v = true) :=
  c7_categorical_mode_fill (fun _ => none)
    [("x", [.str "b", .str "a", .str "b", .str "a", .na])] [] "x"
    ⟨some .categorical, 1, none, [], 0⟩
    [.str "b", .str "a", .str "b", .str "a", .na] (.str "a")
    rfl (by decide) rfl (by with_unfolding_all rfl)

end CleanerM
